import Mathlib

/-!
# Verification of the market-making game matching engine

A shallow embedding of the C++ trading engine (`src/engine/src/order_book.cpp`,
`src/engine/src/engine.cpp`, `src/engine/include/mmg/types.h`,
`src/engine/include/mmg/engine.h`) together with proofs about its
specification.

Modelling conventions:
* `int64_t` prices and quantities are modelled as `Int` (no overflow is
  modelled); C++ integer division (truncation toward zero) is `Int.tdiv`.
* `double` currency values are modelled as exact rationals `ℚ`.
* `std::shared_ptr<Order>` aliasing is modelled by a heap
  `Nat → Option Order` keyed by order id; every container that holds a
  pointer to an order (the book's `orders_` map, the price-level FIFOs,
  the engine's `active_orders_`) holds the order id instead and reads or
  writes the shared object through the heap.
* `std::chrono::steady_clock::now()` is modelled as a monotonic counter
  threaded through the state; each call returns the counter and
  increments it.
* `std::map` keyed containers are modelled either as functions
  (`Nat → Option _`, when no iteration over the container is needed) or
  as association lists with unique keys (when the code iterates or sums
  over the container).
-/

namespace MMG

inductive Side where
  | BUY
  | SELL
deriving DecidableEq, Repr

inductive TimeInForce where
  | GFD
  | IOC
deriving DecidableEq, Repr

inductive InstrumentType where
  | SCALAR
  | CALL
  | PUT
deriving DecidableEq, Repr

inductive OrderStatus where
  | PENDING
  | PARTIAL
  | FILLED
  | CANCELLED
  | REJECTED
deriving DecidableEq, Repr

/-- Modelled from the spec: the `Order` struct is declared in
`mmg/order_book.h`, which is not present under `src/`; its fields are
those listed in spec §3 ("Order") and confirmed by the field accesses in
`order_book.cpp`, `engine.cpp`, the tests and the Python bindings. -/
structure Order where
  id : Nat
  user_id : Nat
  instrument_id : Nat
  side : Side
  price : Int
  quantity : Int
  filled_quantity : Int
  status : OrderStatus
  tif : TimeInForce
  post_only : Bool
  timestamp : Nat
deriving DecidableEq, Repr

/-- `Fill` from `mmg/types.h`. -/
structure Fill where
  order_id : Nat
  user_id : Nat
  instrument_id : Nat
  side : Side
  price : Int
  quantity : Int
  timestamp : Nat
deriving DecidableEq, Repr

/-- `Position` from `mmg/types.h`; the `double` P&L fields are exact
rationals in the model. -/
structure Position where
  instrument_id : Nat
  net_qty : Int
  vwap : Int
  realized_pnl : ℚ
  unrealized_pnl : ℚ
deriving DecidableEq, Repr

/-- Default-constructed `Position` (`Position()` in `mmg/types.h`). -/
def Position.init : Position :=
  { instrument_id := 0, net_qty := 0, vwap := 0
    realized_pnl := 0, unrealized_pnl := 0 }

/-- `InstrumentSpec` from `mmg/types.h` (the `symbol` string is omitted:
it is never read by the engine core). -/
structure InstrumentSpec where
  id : Nat
  type : InstrumentType
  reference_id : Nat
  strike : Int
  tick_size : Int
  lot_size : Int
  tick_value : ℚ
  is_halted : Bool
deriving DecidableEq, Repr

/-- `PriceLevel` from `mmg/types.h`. -/
structure PriceLevel where
  price : Int
  size : Int
deriving DecidableEq, Repr

/-- `MarketSnapshot` from `mmg/types.h`. -/
structure MarketSnapshot where
  instrument_id : Nat
  bids : List PriceLevel
  asks : List PriceLevel
  last_price : Int
  timestamp : Nat
deriving DecidableEq, Repr

/-- Default-constructed `MarketSnapshot()`. -/
def MarketSnapshot.init : MarketSnapshot :=
  { instrument_id := 0, bids := [], asks := [], last_price := 0, timestamp := 0 }

/-- The shared store of order objects (targets of `std::shared_ptr<Order>`). -/
abbrev Heap : Type := Nat → Option Order

/-- Write the order object at id `i`. -/
def setO (h : Heap) (i : Nat) (o : Order) : Heap :=
  fun j => if j = i then some o else h j

/-- Used by the model where C++ dereferences an order pointer.  All
dereferences in the code happen at ids that are present in the heap, so
the default is never observed from a well-formed state. -/
def Order.dummy : Order :=
  { id := 0, user_id := 0, instrument_id := 0, side := Side.BUY, price := 0
    quantity := 0, filled_quantity := 0, status := OrderStatus.PENDING
    tif := TimeInForce.GFD, post_only := false, timestamp := 0 }

/-- Dereference the pointer with id `i`. -/
def fetch (h : Heap) (i : Nat) : Order :=
  (h i).getD Order.dummy

/-!
## Order book (`order_book.cpp`)

Modelled from the spec: the container declarations of `OrderBook` live in
`mmg/order_book.h`, which is not present under `src/`.  Per spec §3
("Order book state") `bids_` is keyed highest-price-first and `asks_`
lowest-price-first, with a FIFO list of orders per level, plus an
`orders_` map from id to order and `last_price_`; this agrees with the
comments in `OrderBook::match_order` ("ascending order" for asks,
"descending order" for bids) and with the behaviour asserted in
`test_order_book.cpp`.  A price-indexed side is modelled as a list of
`(price, FIFO of order ids)` pairs sorted best-price-first, so that
`begin()` is the head of the list.
-/

structure Book where
  instrument_id : Nat
  bids : List (Int × List Nat)
  asks : List (Int × List Nat)
  orders : List Nat
  last_price : Int

/-- `OrderBook::OrderBook(instrument_id)`. -/
def Book.init (iid : Nat) : Book :=
  { instrument_id := iid, bids := [], asks := [], orders := [], last_price := 0 }

/-- State threaded through `match_order`: the order heap, the clock used
by `create_fill`, the book's `last_price_` and `orders_` map. -/
structure MatchSt where
  heap : Heap
  clock : Nat
  last : Int
  orders : List Nat

/-- `OrderBook::create_fill(aggressor, passive, price, quantity)`: the
passive argument is unused by the C++ function; `timestamp` is one
`steady_clock::now()` read. -/
def createFill (iid : Nat) (aggressor : Order) (price quantity : Int)
    (clock : Nat) : Fill :=
  { order_id := aggressor.id, user_id := aggressor.user_id
    instrument_id := iid, side := aggressor.side, price := price
    quantity := quantity, timestamp := clock }

/-- The inner `while` loop of `OrderBook::match_order`: walk the FIFO at
price level `p` front to back, matching the incoming order `oid` against
each resting order.  Returns the final state, the fills produced (in
order), and the remainder of the FIFO.

When a passive order survives partially filled, the C++ loop condition
`order->filled_quantity < order->quantity` is necessarily false on
re-entry (the match quantity was `min` of the two remainders, so the
incoming remainder was the smaller one and is now 0); the model returns
directly in that branch, which is equivalent. -/
def matchAtLevel (iid oid : Nat) (p : Int) :
    MatchSt → List Nat → MatchSt × List Fill × List Nat
  | st, [] => (st, [], [])
  | st, pid :: rest =>
    let o := fetch st.heap oid
    if o.filled_quantity < o.quantity then
      let po := fetch st.heap pid
      let m := min (o.quantity - o.filled_quantity)
                   (po.quantity - po.filled_quantity)
      let f1 := createFill iid o p m st.clock
      let f2 := createFill iid po p m (st.clock + 1)
      let o' := { o with filled_quantity := o.filled_quantity + m }
      let po' := { po with filled_quantity := po.filled_quantity + m }
      let st' : MatchSt :=
        { heap := setO (setO st.heap oid o') pid po'
          clock := st.clock + 2, last := p, orders := st.orders }
      if po'.quantity ≤ po'.filled_quantity then
        -- passive fully filled: status FILLED, pop from the FIFO,
        -- erase from the orders_ map, continue down the FIFO
        let st'' : MatchSt :=
          { st' with heap := setO st'.heap pid { po' with status := OrderStatus.FILLED }
                     orders := st'.orders.filter (· ≠ pid) }
        let r := matchAtLevel iid oid p st'' rest
        (r.1, f1 :: f2 :: r.2.1, r.2.2)
      else
        -- passive partially filled: status PARTIAL; incoming is now full
        ({ st' with heap := setO st'.heap pid { po' with status := OrderStatus.PARTIAL } },
         [f1, f2], pid :: rest)
    else (st, [], pid :: rest)

/-- The outer `while` loop of `OrderBook::match_order`, walking the
opposite side best level first.  `cross p` is the negation of the break
condition (`order->price < price` for an incoming BUY against asks,
`order->price > price` for an incoming SELL against bids).

When a level survives non-empty after `matchAtLevel`, the incoming order
is fully filled, so the C++ loop exits on re-entry; the model returns
directly, which is equivalent. -/
def matchLoop (iid oid : Nat) (cross : Int → Bool) :
    MatchSt → List (Int × List Nat) →
    MatchSt × List Fill × List (Int × List Nat)
  | st, [] => (st, [], [])
  | st, (p, fifo) :: rest =>
    let o := fetch st.heap oid
    if o.filled_quantity < o.quantity then
      if cross p then
        if o.post_only then
          -- post-only order would match: status REJECTED, return
          ({ st with heap := setO st.heap oid { o with status := OrderStatus.REJECTED } },
           [], (p, fifo) :: rest)
        else
          let r := matchAtLevel iid oid p st fifo
          if r.2.2.isEmpty then
            let r' := matchLoop iid oid cross r.1 rest
            (r'.1, r.2.1 ++ r'.2.1, r'.2.2)
          else (r.1, r.2.1, (p, r.2.2) :: rest)
      else (st, [], (p, fifo) :: rest)
    else (st, [], (p, fifo) :: rest)

/-- `OrderBook::match_order`.  The incoming order is the heap object at
id `oid`; the order's `side` (and its `price`, `post_only`, which are
never mutated) select the opposite side and the cross condition. -/
def matchOrder (b : Book) (heap : Heap) (clock : Nat) (oid : Nat) :
    Book × Heap × Nat × List Fill :=
  let o := fetch heap oid
  let st : MatchSt :=
    { heap := heap, clock := clock, last := b.last_price, orders := b.orders }
  if o.side = Side.BUY then
    let r := matchLoop b.instrument_id oid
      (fun p => !(decide (o.price < p))) st b.asks
    ({ b with asks := r.2.2, last_price := r.1.last, orders := r.1.orders },
     r.1.heap, r.1.clock, r.2.1)
  else
    let r := matchLoop b.instrument_id oid
      (fun p => !(decide (p < o.price))) st b.bids
    ({ b with bids := r.2.2, last_price := r.1.last, orders := r.1.orders },
     r.1.heap, r.1.clock, r.2.1)

/-- Insert a new level or append to the FIFO of an existing level;
`before p q` says price `p` is strictly better than price `q` on this
side (`p > q` for bids, `p < q` for asks).  This models
`bids_[price].push_back(order)` / `asks_[price].push_back(order)` on the
sorted-map representation. -/
def addLevel (before : Int → Int → Bool) :
    List (Int × List Nat) → Int → Nat → List (Int × List Nat)
  | [], p, oid => [(p, [oid])]
  | (q, fifo) :: rest, p, oid =>
    if p = q then (q, fifo ++ [oid]) :: rest
    else if before p q then (p, [oid]) :: (q, fifo) :: rest
    else (q, fifo) :: addLevel before rest p oid

/-- `OrderBook::add_to_book`. -/
def addToBook (b : Book) (o : Order) : Book :=
  if o.side = Side.BUY then
    { b with bids := addLevel (fun p q => decide (q < p)) b.bids o.price o.id }
  else
    { b with asks := addLevel (fun p q => decide (p < q)) b.asks o.price o.id }

/-- `orders_[order->id] = order` on the id-set view of the map (the
pointer value itself lives in the heap). -/
def insertId (l : List Nat) (oid : Nat) : List Nat :=
  if oid ∈ l then l else oid :: l

/-- `OrderBook::add_order`.  The incoming order has already been written
to the heap at id `oid` by the caller (the engine constructs it and
holds a `shared_ptr`). -/
def addOrder (b : Book) (heap : Heap) (clock : Nat) (oid : Nat) :
    Book × Heap × Nat × List Fill :=
  let b₀ := { b with orders := insertId b.orders oid }
  let r := matchOrder b₀ heap clock oid
  let b' := r.1
  let heap' := r.2.1
  let clock' := r.2.2.1
  let fills := r.2.2.2
  let o := fetch heap' oid
  if o.status = OrderStatus.REJECTED then
    ({ b' with orders := b'.orders.filter (· ≠ oid) }, heap', clock', fills)
  else if o.filled_quantity < o.quantity ∧ o.tif ≠ TimeInForce.IOC then
    let b'' := addToBook b' o
    (b'',
     setO heap' oid
       { o with status := if 0 < o.filled_quantity then OrderStatus.PARTIAL
                          else OrderStatus.PENDING },
     clock', fills)
  else if o.quantity ≤ o.filled_quantity then
    (b', setO heap' oid { o with status := OrderStatus.FILLED }, clock', fills)
  else
    (b', setO heap' oid { o with status := OrderStatus.CANCELLED }, clock', fills)

/-- Remove order `oid` from the level at price `p` (`std::map::find`
followed by `std::list::remove`), erasing the level if it empties. -/
def removeFromLevels :
    List (Int × List Nat) → Int → Nat → List (Int × List Nat)
  | [], _, _ => []
  | (q, fifo) :: rest, p, oid =>
    if q = p then
      let fifo' := fifo.filter (· ≠ oid)
      if fifo'.isEmpty then rest else (q, fifo') :: rest
    else (q, fifo) :: removeFromLevels rest p oid

/-- `OrderBook::cancel_order`. -/
def Book.cancelOrder (b : Book) (heap : Heap) (oid : Nat) :
    Book × Heap × Bool :=
  if oid ∈ b.orders then
    let o := fetch heap oid
    let b' :=
      if o.side = Side.BUY then
        { b with bids := removeFromLevels b.bids o.price oid }
      else
        { b with asks := removeFromLevels b.asks o.price oid }
    ({ b' with orders := b'.orders.filter (· ≠ oid) },
     setO heap oid { o with status := OrderStatus.CANCELLED }, true)
  else (b, heap, false)

/-- One side of `OrderBook::get_snapshot`: aggregate remaining size per
level, skipping empty levels, up to `depth` reported levels. -/
def snapLevels (heap : Heap) (depth : Nat) :
    List (Int × List Nat) → Nat → List PriceLevel
  | [], _ => []
  | (p, fifo) :: rest, count =>
    if depth ≤ count then []
    else
      let total := fifo.foldl
        (fun acc pid => acc + ((fetch heap pid).quantity - (fetch heap pid).filled_quantity)) 0
      if 0 < total then { price := p, size := total } :: snapLevels heap depth rest (count + 1)
      else snapLevels heap depth rest count

/-- `OrderBook::get_snapshot(depth)`; the default depth is 10 per spec §4.4
(the default argument is declared in the missing `order_book.h`). -/
def Book.getSnapshot (b : Book) (heap : Heap) (clock : Nat)
    (depth : Nat := 10) : MarketSnapshot :=
  { instrument_id := b.instrument_id
    last_price := b.last_price
    timestamp := clock
    bids := snapLevels heap depth b.bids 0
    asks := snapLevels heap depth b.asks 0 }

/-- `OrderBook::get_best_bid`. -/
def Book.bestBid (b : Book) : Int :=
  match b.bids with
  | [] => 0
  | (p, _) :: _ => p

/-- `OrderBook::get_best_ask`. -/
def Book.bestAsk (b : Book) : Int :=
  match b.asks with
  | [] => 0
  | (p, _) :: _ => p

/-!
## Engine (`engine.cpp`, `engine.h`)
-/

/-- `RiskLimits` from `mmg/engine.h`. -/
structure RiskLimits where
  max_position : Int
  max_notional : ℚ
  max_orders_per_sec : Nat
deriving DecidableEq, Repr

/-- Default `RiskLimits()`. -/
def RiskLimits.init : RiskLimits :=
  { max_position := 10000, max_notional := 1000000, max_orders_per_sec := 50 }

/-- `OrderRequest` from `mmg/types.h`. -/
structure OrderRequest where
  user_id : Nat
  instrument_id : Nat
  side : Side
  price : Int
  quantity : Int
  tif : TimeInForce
  post_only : Bool
deriving DecidableEq, Repr

/-- `Engine::TradeRecord`. -/
structure TradeRecord where
  buy_order_id : Nat
  sell_order_id : Nat
  buyer_id : Nat
  seller_id : Nat
  instrument_id : Nat
  price : Int
  quantity : Int
  timestamp : Nat
deriving DecidableEq, Repr

/-- `Engine::Stats`. -/
structure Stats where
  total_orders : Nat
  total_fills : Nat
  total_cancels : Nat
  total_rejects : Nat
deriving DecidableEq, Repr

/-- `Engine::OrderResult`. -/
structure OrderResult where
  order_id : Nat
  success : Bool
  error_message : String
  fills : List Fill
deriving DecidableEq, Repr

/-- Nested per-user position maps (`std::map<UserId, std::map<InstrumentId,
Position>>`), modelled as association lists with unique keys so the code
that iterates and sums over them can be stated. -/
abbrev UserPositions : Type := List (Nat × Position)

abbrev PositionsMap : Type := List (Nat × UserPositions)

/-- Association list lookup (`std::map::find`). -/
def alookup {α : Type} : List (Nat × α) → Nat → Option α
  | [], _ => none
  | (k', v) :: rest, k => if k = k' then some v else alookup rest k

/-- Association list write: replace the value at an existing key, append
a new key otherwise (`std::map::operator[] = v`; insertion position is
irrelevant to every claim, which only reads, sums or iterates). -/
def aset {α : Type} : List (Nat × α) → Nat → α → List (Nat × α)
  | [], k, v => [(k, v)]
  | (k', v') :: rest, k, v =>
    if k = k' then (k, v) :: rest else (k', v') :: aset rest k v

/-- The engine state (the private fields of `class Engine`). -/
structure EngineState where
  next_order_id : Nat
  instruments : Nat → Option InstrumentSpec
  books : Nat → Option Book
  positions : PositionsMap
  risk_limits : Nat → Option RiskLimits
  active_orders : List Nat
  user_orders : Nat → List Nat
  trade_history : List TradeRecord
  fill_history : List Fill
  stats : Stats
  heap : Heap
  clock : Nat

/-- `Engine::Engine()`. -/
def EngineState.init : EngineState :=
  { next_order_id := 1
    instruments := fun _ => none
    books := fun _ => none
    positions := []
    risk_limits := fun _ => none
    active_orders := []
    user_orders := fun _ => []
    trade_history := []
    fill_history := []
    stats := { total_orders := 0, total_fills := 0, total_cancels := 0, total_rejects := 0 }
    heap := fun _ => none
    clock := 0 }

/-- Point update of a function map. -/
def setF {α : Type} (f : Nat → α) (k : Nat) (v : α) : Nat → α :=
  fun j => if j = k then v else f j

/-- `Engine::add_instrument`. -/
def addInstrument (s : EngineState) (spec : InstrumentSpec) :
    EngineState × Bool :=
  match s.instruments spec.id with
  | some _ => (s, false)
  | none =>
    ({ s with instruments := setF s.instruments spec.id (some spec)
              books := setF s.books spec.id (some (Book.init spec.id)) }, true)

/-- `Engine::halt_instrument`. -/
def haltInstrument (s : EngineState) (id : Nat) (halted : Bool) :
    EngineState × Bool :=
  match s.instruments id with
  | none => (s, false)
  | some inst =>
    ({ s with instruments := setF s.instruments id (some { inst with is_halted := halted }) },
     true)

/-- `Engine::check_risk`. -/
def checkRisk (s : EngineState) (user_id inst_id : Nat) (side : Side)
    (qty : Int) : Bool :=
  match s.risk_limits user_id with
  | none => true
  | some limits =>
    match alookup s.positions user_id with
    | none => true
    | some m =>
      match alookup m inst_id with
      | none => true
      | some pos =>
        let new_pos := pos.net_qty + (if side = Side.BUY then qty else -qty)
        !(decide (limits.max_position < |new_pos|))

/-- `Engine::set_risk_limits`. -/
def setRiskLimits (s : EngineState) (user_id : Nat) (limits : RiskLimits) :
    EngineState :=
  { s with risk_limits := setF s.risk_limits user_id (some limits) }

/-- The body of `Engine::update_position` acting on one `Position`
(after the initial `pos.instrument_id = fill.instrument_id` write). -/
def applyFill (pos : Position) (fill : Fill) : Position :=
  let pos := { pos with instrument_id := fill.instrument_id }
  let fill_qty : Int := if fill.side = Side.BUY then fill.quantity else -fill.quantity
  if pos.net_qty = 0 then
    { pos with vwap := fill.price, net_qty := fill_qty }
  else if (0 < pos.net_qty ∧ 0 < fill_qty) ∨ (pos.net_qty < 0 ∧ fill_qty < 0) then
    -- adding to the position; C++ integer division truncates toward zero
    let abs_old := |pos.net_qty|
    let abs_new := |fill_qty|
    { pos with
      vwap := Int.tdiv (pos.vwap * abs_old + fill.price * abs_new) (abs_old + abs_new)
      net_qty := pos.net_qty + fill_qty }
  else
    -- reducing or flipping: realize P&L
    let reduce_qty := min |pos.net_qty| |fill_qty|
    let pnl_per_unit : ℚ :=
      if pos.net_qty < 0 then -((fill.price - pos.vwap : Int) / 100 : ℚ)
      else ((fill.price - pos.vwap : Int) / 100 : ℚ)
    let pos := { pos with realized_pnl := pos.realized_pnl + pnl_per_unit * reduce_qty }
    let new_net := pos.net_qty + fill_qty
    -- `std::signbit` on the (exactly converted) doubles of two nonzero
    -- integers is `· < 0`
    if new_net ≠ 0 ∧ (decide (new_net < 0) ≠ decide (new_net - fill_qty < 0)) then
      { pos with net_qty := new_net, vwap := fill.price }
    else
      { pos with net_qty := new_net }

/-- `Engine::update_position`: `positions_[user_id][fill.instrument_id]`
default-constructs missing entries, then the position is updated in
place. -/
def updatePosition (positions : PositionsMap) (user_id : Nat) (fill : Fill) :
    PositionsMap :=
  let m := (alookup positions user_id).getD []
  let pos := (alookup m fill.instrument_id).getD Position.init
  aset positions user_id (aset m fill.instrument_id (applyFill pos fill))

/-- The fill-processing loop of `Engine::submit_order` (step over the
fill vector two at a time, updating positions, fill history, the
`total_fills` counter, and appending one `TradeRecord` per complete
pair). -/
def processFills (positions : PositionsMap) (fillHist : List Fill)
    (tradeHist : List TradeRecord) (fillCount : Nat) :
    List Fill → PositionsMap × List Fill × List TradeRecord × Nat
  | [] => (positions, fillHist, tradeHist, fillCount)
  | [f1] =>
    (updatePosition positions f1.user_id f1, fillHist ++ [f1], tradeHist,
     fillCount + 1)
  | f1 :: f2 :: rest =>
    let positions := updatePosition positions f1.user_id f1
    let positions := updatePosition positions f2.user_id f2
    let trade : TradeRecord :=
      if f1.side = Side.BUY then
        { buy_order_id := f1.order_id, buyer_id := f1.user_id
          sell_order_id := f2.order_id, seller_id := f2.user_id
          instrument_id := f1.instrument_id, price := f1.price
          quantity := f1.quantity, timestamp := f1.timestamp }
      else
        { sell_order_id := f1.order_id, seller_id := f1.user_id
          buy_order_id := f2.order_id, buyer_id := f2.user_id
          instrument_id := f1.instrument_id, price := f1.price
          quantity := f1.quantity, timestamp := f1.timestamp }
    processFills positions (fillHist ++ [f1, f2]) (tradeHist ++ [trade])
      (fillCount + 2) rest

/-- `Engine::submit_order`. -/
def submitOrder (s : EngineState) (request : OrderRequest) :
    EngineState × OrderResult :=
  match s.instruments request.instrument_id with
  | none =>
    ({ s with stats := { s.stats with total_rejects := s.stats.total_rejects + 1 } },
     { order_id := 0, success := false, error_message := "Instrument not found", fills := [] })
  | some inst =>
    if inst.is_halted then
      ({ s with stats := { s.stats with total_rejects := s.stats.total_rejects + 1 } },
       { order_id := 0, success := false, error_message := "Instrument is halted", fills := [] })
    else if !(checkRisk s request.user_id request.instrument_id request.side request.quantity) then
      ({ s with stats := { s.stats with total_rejects := s.stats.total_rejects + 1 } },
       { order_id := 0, success := false, error_message := "Risk limit exceeded", fills := [] })
    else if request.quantity ≤ 0 then
      ({ s with stats := { s.stats with total_rejects := s.stats.total_rejects + 1 } },
       { order_id := 0, success := false, error_message := "Invalid quantity", fills := [] })
    else
      let oid := s.next_order_id
      let order : Order :=
        { id := oid, user_id := request.user_id
          instrument_id := request.instrument_id, side := request.side
          price := request.price, quantity := request.quantity
          filled_quantity := 0, status := OrderStatus.PENDING
          tif := request.tif, post_only := request.post_only
          timestamp := s.clock }
      let heap₀ := setO s.heap oid order
      -- `order_books_[request.instrument_id]` dereferences an existing
      -- book: `add_instrument` created it together with the instrument
      let book := (s.books request.instrument_id).getD (Book.init request.instrument_id)
      let r := addOrder book heap₀ (s.clock + 1) oid
      let book' := r.1
      let heap' := r.2.1
      let clock' := r.2.2.1
      let fills := r.2.2.2
      let o := fetch heap' oid
      let active' :=
        if o.status = OrderStatus.PENDING ∨ o.status = OrderStatus.PARTIAL then
          insertId s.active_orders oid
        else s.active_orders
      let userOrders' :=
        if o.status = OrderStatus.PENDING ∨ o.status = OrderStatus.PARTIAL then
          setF s.user_orders request.user_id (insertId (s.user_orders request.user_id) oid)
        else s.user_orders
      let pf := processFills s.positions s.fill_history s.trade_history
          s.stats.total_fills fills
      let positions' := pf.1
      let fillHist' := pf.2.1
      let tradeHist' := pf.2.2.1
      let fillCount' := pf.2.2.2
      let stats' : Stats :=
        { s.stats with
            total_fills := fillCount'
            total_orders := s.stats.total_orders + 1 }
      ({ s with
          next_order_id := oid + 1
          books := setF s.books request.instrument_id (some book')
          positions := positions'
          active_orders := active'
          user_orders := userOrders'
          trade_history := tradeHist'
          fill_history := fillHist'
          stats := stats'
          heap := heap'
          clock := clock' },
       { order_id := oid, success := true, error_message := "", fills := fills })

/-- `Engine::cancel_order`. -/
def cancelOrder (s : EngineState) (order_id user_id : Nat) :
    EngineState × Bool :=
  if order_id ∈ s.active_orders then
    let o := fetch s.heap order_id
    if o.user_id = user_id then
      let book := (s.books o.instrument_id).getD (Book.init o.instrument_id)
      let r := Book.cancelOrder book s.heap order_id
      let book' := r.1
      let heap' := r.2.1
      let ok := r.2.2
      if ok then
        ({ s with
            books := setF s.books o.instrument_id (some book')
            heap := heap'
            active_orders := s.active_orders.filter (· ≠ order_id)
            user_orders := setF s.user_orders user_id
              ((s.user_orders user_id).filter (· ≠ order_id))
            stats := { s.stats with total_cancels := s.stats.total_cancels + 1 } },
         true)
      else (s, false)
    else (s, false)
  else (s, false)

/-- `Engine::replace_order` (`new_price`/`new_qty` are nullable
pointers, modelled as `Option`). -/
def replaceOrder (s : EngineState) (order_id user_id : Nat)
    (new_price new_qty : Option Int) : EngineState × Bool :=
  if order_id ∈ s.active_orders then
    let old_order := fetch s.heap order_id
    if old_order.user_id = user_id then
      let c := cancelOrder s order_id user_id
      let s' := c.1
      let ok := c.2
      if ok then
        let request : OrderRequest :=
          { user_id := user_id
            instrument_id := old_order.instrument_id
            side := old_order.side
            price := new_price.getD old_order.price
            quantity := new_qty.getD (old_order.quantity - old_order.filled_quantity)
            tif := old_order.tif
            post_only := old_order.post_only }
        let r := submitOrder s' request
        (r.1, r.2.success)
      else (s', false)
    else (s, false)
  else (s, false)

/-- `Engine::cancel_all` (iterate over a copy of the user's order-id
set). -/
def cancelAll (s : EngineState) (user_id : Nat) : EngineState × Bool :=
  let ids := s.user_orders user_id
  (ids.foldl (fun st oid => (cancelOrder st oid user_id).1) s, true)

/-- `Engine::get_mark_price`. -/
def getMarkPrice (s : EngineState) (id : Nat) : Int :=
  match s.books id with
  | none => 0
  | some b =>
    if 0 < b.last_price then b.last_price
    else
      let bid := b.bestBid
      let ask := b.bestAsk
      if 0 < bid ∧ 0 < ask then Int.tdiv (bid + ask) 2 else 0

/-- `Engine::get_snapshot`. -/
def getSnapshot (s : EngineState) (id : Nat) : MarketSnapshot :=
  match s.books id with
  | none => MarketSnapshot.init
  | some b => b.getSnapshot s.heap s.clock

/-- `Engine::get_total_pnl`: realized P&L over every position of the
user, plus freshly computed unrealized P&L on open positions with a
positive mark price. -/
def getTotalPnl (s : EngineState) (user_id : Nat) : ℚ :=
  match alookup s.positions user_id with
  | none => 0
  | some m =>
    m.foldl
      (fun total entry =>
        let pos := entry.2
        let total := total + pos.realized_pnl
        if pos.net_qty ≠ 0 then
          let mark := getMarkPrice s entry.1
          if 0 < mark then
            total + ((mark : ℚ) / 100 - (pos.vwap : ℚ) / 100) * (pos.net_qty : ℚ)
          else total
        else total)
      0

/-- The settlement update of one position (`Engine::settle_instrument`
loop body, for a position with `net_qty ≠ 0`). -/
def settlePosition (inst : InstrumentSpec) (settlement_value : Int)
    (pos : Position) : Position :=
  let payoff : ℚ :=
    match inst.type with
    | InstrumentType.SCALAR =>
      ((settlement_value : ℚ) / 100) * (pos.net_qty : ℚ) * inst.tick_value
    | InstrumentType.CALL =>
      max 0 (((settlement_value - inst.strike : Int) : ℚ) / 100) *
        (pos.net_qty : ℚ) * inst.tick_value
    | InstrumentType.PUT =>
      max 0 (((inst.strike - settlement_value : Int) : ℚ) / 100) *
        (pos.net_qty : ℚ) * inst.tick_value
  let cost_basis : ℚ := ((pos.vwap : ℚ) / 100) * (pos.net_qty : ℚ) * inst.tick_value
  { pos with
      realized_pnl := pos.realized_pnl + (payoff - cost_basis)
      unrealized_pnl := 0
      net_qty := 0
      vwap := 0 }

/-- `Engine::settle_instrument`. -/
def settleInstrument (s : EngineState) (id : Nat) (settlement_value : Int) :
    EngineState × Bool :=
  match s.instruments id with
  | none => (s, false)
  | some inst =>
    let positions' := s.positions.map (fun entry =>
      match alookup entry.2 id with
      | none => entry
      | some pos =>
        if pos.net_qty = 0 then entry
        else (entry.1, aset entry.2 id (settlePosition inst settlement_value pos)))
    ({ s with
        positions := positions'
        instruments := setF s.instruments id (some { inst with is_halted := true }) },
     true)

/-!
## Verification-level definitions

Engine operation traces, well-formedness predicates for reachable
states, and the bookkeeping sums used by the conservation arguments.
-/

/-- The mutating public engine operations (the calls a client sequence is
made of, besides `add_instrument` which fixes the instrument universe). -/
inductive Op where
  | submit (req : OrderRequest)
  | cancel (oid uid : Nat)
  | replace (oid uid : Nat) (new_price new_qty : Option Int)
  | cancelAll (uid : Nat)
  | setRisk (uid : Nat) (limits : RiskLimits)
  | halt (id : Nat) (halted : Bool)
  | settle (id : Nat) (v : Int)

/-- Apply one operation, discarding its result value. -/
def applyOp (s : EngineState) : Op → EngineState
  | Op.submit req => (submitOrder s req).1
  | Op.cancel oid uid => (cancelOrder s oid uid).1
  | Op.replace oid uid p q => (replaceOrder s oid uid p q).1
  | Op.cancelAll uid => (cancelAll s uid).1
  | Op.setRisk uid limits => setRiskLimits s uid limits
  | Op.halt id halted => (haltInstrument s id halted).1
  | Op.settle id v => (settleInstrument s id v).1

/-- Apply a sequence of operations. -/
def applyOps (s : EngineState) (ops : List Op) : EngineState :=
  ops.foldl applyOp s

/-- The signed fill quantity (`+qty` for a BUY fill, `-qty` for a SELL
fill). -/
def signedQty (f : Fill) : Int :=
  if f.side = Side.BUY then f.quantity else -f.quantity

/-- The opposite side (a verification-level notion used to state that the
two fills of a match face each other). -/
def Side.flip : Side → Side
  | Side.BUY => Side.SELL
  | Side.SELL => Side.BUY

/-- Fill lists produced by one `add_order` call: adjacent pairs, the
aggressor's fill first (bearing the incoming order's id and side), the
passive counterparty's fill second (opposite side), with identical
price, quantity and instrument, and timestamps from two consecutive
clock reads. -/
def PairedFills (oid : Nat) (sd : Side) (iid : Nat) : List Fill → Prop
  | [] => True
  | [_] => False
  | f1 :: f2 :: rest =>
    f1.order_id = oid ∧ f1.side = sd ∧ f2.side = sd.flip ∧
    f1.instrument_id = iid ∧ f2.instrument_id = iid ∧
    f1.price = f2.price ∧ f1.quantity = f2.quantity ∧
    f2.timestamp = f1.timestamp + 1 ∧
    PairedFills oid sd iid rest

/-- All order ids resting on the price levels of one side. -/
def levelIds (levels : List (Int × List Nat)) : List Nat :=
  levels.flatMap (fun l => l.2)

/-- Well-formedness of one book side against the heap: every resting
order has the stated side, and every resting id is below the engine's
id counter (so freshly minted ids never alias booked orders). -/
def SideWF (h : Heap) (next : Nat) (sd : Side) (levels : List (Int × List Nat)) : Prop :=
  ∀ id ∈ levelIds levels, (fetch h id).side = sd ∧ (fetch h id).id = id ∧ id < next

/-- Well-formedness of the engine state needed by the conservation and
pairing arguments; established by `EngineState.init` and preserved by
every operation. -/
structure StateWF (s : EngineState) : Prop where
  books_wf : ∀ j b, s.books j = some b →
    SideWF s.heap s.next_order_id Side.BUY b.bids ∧
    SideWF s.heap s.next_order_id Side.SELL b.asks ∧
    b.instrument_id = j
  keys_nodup : (s.positions.map Prod.fst).Nodup

/-- The sum of a per-position quantity over a user's position map. -/
def innerSum {α : Type} [AddCommMonoid α] (g : Position → α)
    (m : UserPositions) : α :=
  (m.map (fun e => g e.2)).sum

/-- The sum of a per-position quantity over all users' positions. -/
def posSum {α : Type} [AddCommMonoid α] (g : Position → α)
    (P : PositionsMap) : α :=
  (P.map (fun e => innerSum g e.2)).sum

/-- The conserved per-position value: realized P&L minus the cost basis
implied by the held VWAP (in currency units). -/
def posVal (p : Position) : ℚ :=
  p.realized_pnl - ((p.vwap * p.net_qty : Int) : ℚ) / 100

/-- The VWAP-average division of `update_position` is exact for this
fill at this position (no truncation by the C++ integer division).
Only the add-to-position branch divides. -/
def addExact (pos : Position) (fill : Fill) : Bool :=
  let fill_qty : Int := if fill.side = Side.BUY then fill.quantity else -fill.quantity
  if pos.net_qty = 0 then true
  else if (0 < pos.net_qty ∧ 0 < fill_qty) ∨ (pos.net_qty < 0 ∧ fill_qty < 0) then
    decide ((|pos.net_qty| + |fill_qty|) ∣ (pos.vwap * |pos.net_qty| + fill.price * |fill_qty|))
  else true

/-- Check `addExact` for every fill of a list, applied in order to the
evolving position maps (the order `Engine::submit_order` applies them). -/
def fillsExact (positions : PositionsMap) : List Fill → Bool
  | [] => true
  | f :: rest =>
    addExact ((alookup ((alookup positions f.user_id).getD []) f.instrument_id).getD Position.init) f &&
      fillsExact (updatePosition positions f.user_id f) rest

/-- The fills an operation produces and applies to the position maps.
`cancel`, `cancelAll`, `setRisk`, `halt` and `settle` produce none;
`replace` applies the fills of its inner re-submission (the cancel step
does not change any position, so they are applied to the operation's
initial position maps, like a plain submit). -/
def opFills (s : EngineState) : Op → List Fill
  | Op.submit req => (submitOrder s req).2.fills
  | Op.replace oid uid new_price new_qty =>
    if oid ∈ s.active_orders then
      let old_order := fetch s.heap oid
      if old_order.user_id = uid then
        let c := cancelOrder s oid uid
        if c.2 then
          (submitOrder c.1
            { user_id := uid
              instrument_id := old_order.instrument_id
              side := old_order.side
              price := new_price.getD old_order.price
              quantity := new_qty.getD (old_order.quantity - old_order.filled_quantity)
              tif := old_order.tif
              post_only := old_order.post_only }).2.fills
        else []
      else []
    else []
  | _ => []

/-- Every VWAP division along the trace is exact. -/
def opsExact : EngineState → List Op → Bool
  | _, [] => true
  | s, op :: rest => fillsExact s.positions (opFills s op) && opsExact (applyOp s op) rest

/-!
## Concrete scenarios

Small executable runs of the engine used by the counterexamples and
witnesses below.  `scnTick1` is a plain SCALAR instrument with
`tick_value = 1` (the setup of `test_pnl.cpp`); `scnTick2` is the same
instrument with `tick_value = 2`.
-/

/-- A SCALAR instrument like instrument 1 of `test_pnl.cpp`. -/
def scalarSpec (tick : ℚ) : InstrumentSpec :=
  { id := 1, type := InstrumentType.SCALAR, reference_id := 0, strike := 0
    tick_size := 100, lot_size := 1, tick_value := tick, is_halted := false }

/-- A GFD, non-post-only order request. -/
def mkReq (u : Nat) (sd : Side) (p q : Int) : OrderRequest :=
  { user_id := u, instrument_id := 1, side := sd, price := p, quantity := q
    tif := TimeInForce.GFD, post_only := false }

/-- Engine with the tick-1 SCALAR registered. -/
def scnTick1 : EngineState := (addInstrument EngineState.init (scalarSpec 1)).1

/-- User 1 buys 100 at 10000 from user 2, then sells 100 at 10500 to
user 3 (the `RealizedPnL` scenario of `test_pnl.cpp`). -/
def scnRoundTrip : EngineState :=
  applyOps scnTick1
    [Op.submit (mkReq 1 Side.BUY 10000 100),
     Op.submit (mkReq 2 Side.SELL 10000 100),
     Op.submit (mkReq 3 Side.BUY 10500 100),
     Op.submit (mkReq 1 Side.SELL 10500 100)]

/-- Engine with a tick-2 SCALAR; user 1 buys 1 at 10000 from user 2,
sells 1 at 11000 to user 3, and the instrument settles at 10000. -/
def scnTick2Settled : EngineState :=
  (settleInstrument
    (applyOps (addInstrument EngineState.init (scalarSpec 2)).1
      [Op.submit (mkReq 1 Side.BUY 10000 1),
       Op.submit (mkReq 2 Side.SELL 10000 1),
       Op.submit (mkReq 3 Side.BUY 11000 1),
       Op.submit (mkReq 1 Side.SELL 11000 1)])
    1 10000).1

/-- User 7 is risk-limited to a max position of 10 and has no position. -/
def scnRisk : EngineState :=
  setRiskLimits scnTick1 7 { RiskLimits.init with max_position := 10 }

/-- A resting bid of user 1, 100 at 10000 (the post-only scenario:
submitting a crossing post-only SELL against it). -/
def scnRestingBid : EngineState :=
  (submitOrder scnTick1 (mkReq 1 Side.BUY 10000 100)).1

/-- The crossed trade of the `SimpleCross` scenario (two fills). -/
def scnCross : EngineState × OrderResult :=
  submitOrder scnRestingBid (mkReq 2 Side.SELL 10000 100)

end MMG

/-!
## Verification-layer definitions

Observers and predicates the lemmas and claim theorems below are stated
with, plus the concrete fixtures the witnesses and counterexamples use.
-/

namespace MMG

def posLong50 : Position :=
  { instrument_id := 1, net_qty := 50, vwap := 10000
    realized_pnl := 0, unrealized_pnl := 0 }

def fillSell100 : Fill :=
  { order_id := 2, user_id := 2, instrument_id := 1, side := Side.SELL
    price := 10500, quantity := 100, timestamp := 0 }

def fillBuy5 : Fill :=
  { order_id := 1, user_id := 1, instrument_id := 1, side := Side.BUY
    price := 10000, quantity := 5, timestamp := 0 }

def coreEq (h h' : Heap) : Prop :=
  ∀ j, (fetch h' j).id = (fetch h j).id ∧
       (fetch h' j).side = (fetch h j).side ∧
       (fetch h' j).price = (fetch h j).price ∧
       (fetch h' j).quantity = (fetch h j).quantity ∧
       (fetch h' j).user_id = (fetch h j).user_id ∧
       (fetch h' j).tif = (fetch h j).tif ∧
       (fetch h' j).post_only = (fetch h j).post_only

/-- The position read by `update_position` before it writes. -/
def posOf (P : PositionsMap) (u i : Nat) : Position :=
  (alookup ((alookup P u).getD []) i).getD Position.init

/-- The position-map effect of the fill-processing loop. -/
def updFold (P : PositionsMap) (fills : List Fill) : PositionsMap :=
  fills.foldl (fun Q f => updatePosition Q f.user_id f) P

/-- In a single-instrument run every user's inner map is empty or a
single entry keyed by the traded instrument. -/
def ShapeOK (i : Nat) (P : PositionsMap) : Prop :=
  ∀ e ∈ P, e.2 = [] ∨ ∃ pos, e.2 = [(i, pos)]

/-- The quantities conserved along a single-instrument trace.  These are
established by the initial engine and preserved by every public
operation (submission needs exact VWAP divisions for the two sums). -/
structure TraceInv (i : Nat) (s : EngineState) : Prop where
  nodup : (s.positions.map Prod.fst).Nodup
  shape : ShapeOK i s.positions
  net_sum : posSum (fun p => p.net_qty) s.positions = 0
  val_sum : posSum posVal s.positions = 0
  inst_none : ∀ j, j ≠ i → s.instruments j = none
  inst_some : ∃ inst, s.instruments i = some inst ∧ inst.tick_value = 1
  books_none : ∀ j, j ≠ i → s.books j = none
  book_inst : ∀ b, s.books i = some b → b.instrument_id = i
  sides_bids : ∀ b, s.books i = some b → ∀ id ∈ levelIds b.bids,
    (fetch s.heap id).side = Side.BUY ∧ id < s.next_order_id
  sides_asks : ∀ b, s.books i = some b → ∀ id ∈ levelIds b.asks,
    (fetch s.heap id).side = Side.SELL ∧ id < s.next_order_id

/-- The constant intrinsic factor of the settlement payoff (payoff =
factor · net_qty · tick_value). -/
def intrinsicQ (inst : InstrumentSpec) (v : Int) : ℚ :=
  match inst.type with
  | InstrumentType.SCALAR => (v : ℚ) / 100
  | InstrumentType.CALL => max 0 (((v - inst.strike : Int) : ℚ) / 100)
  | InstrumentType.PUT => max 0 (((inst.strike - v : Int) : ℚ) / 100)

/-- The settled position entry of a user in `scnTick2Settled`. -/
def ent (u : Nat) : Nat × Position :=
  ((alookup scnTick2Settled.positions u).getD []).getD 0 (0, Position.init)

/-- The four orders of the `RealizedPnL` scenario as a reusable op list. -/
def opsRoundTrip : List Op :=
  [Op.submit (mkReq 1 Side.BUY 10000 100),
   Op.submit (mkReq 2 Side.SELL 10000 100),
   Op.submit (mkReq 3 Side.BUY 10500 100),
   Op.submit (mkReq 1 Side.SELL 10500 100)]

/-- Modelled from the spec: the pairing property as the spec words it —
adjacent pairs of fills, aggressor first, passive second, with identical
price, quantity, instrument id AND timestamp. -/
def PairedFillsSpec (oid : Nat) (sd : Side) (iid : Nat) : List Fill → Prop
  | [] => True
  | [_] => False
  | f1 :: f2 :: rest =>
    f1.order_id = oid ∧ f1.side = sd ∧ f2.side = sd.flip ∧
    f1.instrument_id = iid ∧ f2.instrument_id = iid ∧
    f1.price = f2.price ∧ f1.quantity = f2.quantity ∧
    f2.timestamp = f1.timestamp ∧
    PairedFillsSpec oid sd iid rest

/-- The book and heap of the `scnCross` aggression, as a plain
`addOrder` call: resting SELL order 1 at 10000, incoming BUY order 2. -/
def crossHeap : Heap :=
  setO (setO (fun _ => none) 1
    { id := 1, user_id := 1, instrument_id := 1, side := Side.SELL, price := 10000
      quantity := 100, filled_quantity := 0, status := OrderStatus.PENDING
      tif := TimeInForce.GFD, post_only := false, timestamp := 0 }) 2
    { id := 2, user_id := 2, instrument_id := 1, side := Side.BUY, price := 10000
      quantity := 100, filled_quantity := 0, status := OrderStatus.PENDING
      tif := TimeInForce.GFD, post_only := false, timestamp := 1 }

/-- A book with the single resting SELL order 1 at price 10000. -/
def crossBook : Book :=
  { instrument_id := 1, bids := [], asks := [(10000, [1])], orders := [1]
    last_price := 0 }

/-- A heap order that is completely filled. -/
def Filled (h : Heap) (a : Nat) : Prop :=
  (fetch h a).quantity ≤ (fetch h a).filled_quantity

/-- The side of the book an incoming order of side `sd` matches against. -/
def oppSide (b : Book) (sd : Side) : List (Int × List Nat) :=
  if sd = Side.BUY then b.asks else b.bids

/-- The cross condition of `match_order` for an incoming order of side
`sd` with limit price `limit` against a level at price `p` (the negation
of the C++ break condition). -/
def crossP (sd : Side) (limit p : Int) : Bool :=
  if sd = Side.BUY then !(decide (limit < p)) else !(decide (p < limit))

/-- Modelled from the spec: price `p` is strictly better than `q` on the
side an order of side `sd` matches against (lower ask for a BUY, higher
bid for a SELL) — the iteration order of the `std::map` book sides. -/
def better (sd : Side) (p q : Int) : Bool :=
  if sd = Side.BUY then decide (p < q) else decide (q < p)

/-- Modelled from the spec: the levels of a book side are sorted
strictly best price first (`std::map` key order). -/
abbrev LevelsSorted (sd : Side) (levels : List (Int × List Nat)) : Prop :=
  levels.Pairwise (fun a b => better sd a.1 b.1 = true)

/-- Two resting SELL orders at 10000 (FIFO queue [1, 2]), one at 10100,
and an incoming BUY order 4 at 10050 for 150. -/
def c8Heap : Heap :=
  setO (setO (setO (setO (fun _ => none) 1
    { id := 1, user_id := 1, instrument_id := 1, side := Side.SELL, price := 10000
      quantity := 100, filled_quantity := 0, status := OrderStatus.PENDING
      tif := TimeInForce.GFD, post_only := false, timestamp := 0 }) 2
    { id := 2, user_id := 2, instrument_id := 1, side := Side.SELL, price := 10000
      quantity := 100, filled_quantity := 0, status := OrderStatus.PENDING
      tif := TimeInForce.GFD, post_only := false, timestamp := 1 }) 3
    { id := 3, user_id := 3, instrument_id := 1, side := Side.SELL, price := 10100
      quantity := 100, filled_quantity := 0, status := OrderStatus.PENDING
      tif := TimeInForce.GFD, post_only := false, timestamp := 2 }) 4
    { id := 4, user_id := 4, instrument_id := 1, side := Side.BUY, price := 10050
      quantity := 150, filled_quantity := 0, status := OrderStatus.PENDING
      tif := TimeInForce.GFD, post_only := false, timestamp := 3 }

/-- The book holding the three resting SELL orders of `c8Heap`. -/
def c8Book : Book :=
  { instrument_id := 1, bids := [], asks := [(10000, [1, 2]), (10100, [3])]
    orders := [1, 2, 3], last_price := 0 }

/-- A post-only SELL order at 10000 that would cross the resting bid. -/
def poOrder : Order :=
  { id := 2, user_id := 2, instrument_id := 1, side := Side.SELL, price := 10000
    quantity := 100, filled_quantity := 0, status := OrderStatus.PENDING
    tif := TimeInForce.GFD, post_only := true, timestamp := 1 }

/-- A book with one resting bid of 100 at 10000 (order 1). -/
def poBook : Book :=
  { instrument_id := 1, bids := [(10000, [1])], asks := [], orders := [1]
    last_price := 0 }

/-- The heap backing `poBook`: the resting bid and the incoming
post-only SELL. -/
def poHeap : Heap :=
  setO (setO (fun _ => none) 1
    { id := 1, user_id := 1, instrument_id := 1, side := Side.BUY, price := 10000
      quantity := 100, filled_quantity := 0, status := OrderStatus.PENDING
      tif := TimeInForce.GFD, post_only := false, timestamp := 0 }) 2 poOrder

end MMG

/-!
## Lemmas and claim theorems
-/

namespace MMG

/-- C9: `Engine::submit_order` fails in exactly four cases, tested in
order — unknown instrument ("Instrument not found"), halted instrument
("Instrument is halted"), failed risk check ("Risk limit exceeded"),
and non-positive quantity ("Invalid quantity") — and a rejected request
returns `order_id = 0` and changes nothing of the state but the
`total_rejects` counter, which grows by exactly one. -/
theorem c9_thm (s : EngineState) (req : OrderRequest) :
    ((submitOrder s req).2.error_message = "Instrument not found" ↔
      s.instruments req.instrument_id = none) ∧
    ((submitOrder s req).2.error_message = "Instrument is halted" ↔
      ∃ inst, s.instruments req.instrument_id = some inst ∧ inst.is_halted = true) ∧
    ((submitOrder s req).2.error_message = "Risk limit exceeded" ↔
      ∃ inst, s.instruments req.instrument_id = some inst ∧ inst.is_halted = false ∧
        checkRisk s req.user_id req.instrument_id req.side req.quantity = false) ∧
    ((submitOrder s req).2.error_message = "Invalid quantity" ↔
      ∃ inst, s.instruments req.instrument_id = some inst ∧ inst.is_halted = false ∧
        checkRisk s req.user_id req.instrument_id req.side req.quantity = true ∧
        req.quantity ≤ 0) ∧
    ((submitOrder s req).2.success = false ↔
      (s.instruments req.instrument_id = none ∨
       (∃ inst, s.instruments req.instrument_id = some inst ∧ inst.is_halted = true) ∨
       checkRisk s req.user_id req.instrument_id req.side req.quantity = false ∨
       req.quantity ≤ 0)) ∧
    ((submitOrder s req).2.success = false →
      (submitOrder s req).2.order_id = 0 ∧
      (submitOrder s req).1 =
        { s with stats := { s.stats with total_rejects := s.stats.total_rejects + 1 } }) := by
  cases h : s.instruments req.instrument_id with
  | none =>
    simp [submitOrder, h]
  | some inst =>
    by_cases hh : inst.is_halted
    · simp [submitOrder, h, hh]
    · by_cases hr : checkRisk s req.user_id req.instrument_id req.side req.quantity
      · by_cases hq : req.quantity ≤ 0
        · simp [submitOrder, h, hh, hr, hq]
        · simp [submitOrder, h, hh, hr, hq]
      · simp [submitOrder, h, hh, hr]

/-- C10: `Engine::settle_instrument` never touches the order books:
books, heap (so every resting order's status and remaining quantity),
active orders and per-user order lists are unchanged, `get_snapshot`
returns the same snapshot, and `cancel_order` succeeds or fails exactly
as before settlement, with the same resulting books and heap. -/
theorem c10_thm (s : EngineState) (id : Nat) (v : Int) :
    (settleInstrument s id v).1.books = s.books ∧
    (settleInstrument s id v).1.heap = s.heap ∧
    (settleInstrument s id v).1.active_orders = s.active_orders ∧
    (settleInstrument s id v).1.user_orders = s.user_orders ∧
    (∀ j, getSnapshot (settleInstrument s id v).1 j = getSnapshot s j) ∧
    (∀ oid uid,
      (cancelOrder (settleInstrument s id v).1 oid uid).2 =
        (cancelOrder s oid uid).2 ∧
      (cancelOrder (settleInstrument s id v).1 oid uid).1.books =
        (cancelOrder s oid uid).1.books ∧
      (cancelOrder (settleInstrument s id v).1 oid uid).1.heap =
        (cancelOrder s oid uid).1.heap) := by
  cases h : s.instruments id with
  | none =>
    simp [settleInstrument, h]
  | some inst =>
    simp only [settleInstrument, h]
    refine ⟨trivial, trivial, trivial, trivial, fun j => ?_, fun oid uid => ?_⟩
    · simp [getSnapshot]
    · simp only [cancelOrder]
      split_ifs <;> simp_all

/-- C2 (amended): `Engine::check_risk` fails — and the order is
rejected with "Risk limit exceeded" — precisely when the user has risk
limits set AND already has a position-map entry for the instrument AND
the post-trade absolute position exceeds `max_position`.  A user with
no prior position entry in the instrument is never risk-checked (the
spec's "in particular when the user has no prior position" clause does
not hold), and a user with no limits set is never risk-rejected. -/
theorem c2_thm (s : EngineState) (u i : Nat) (sd : Side) (q : Int) :
    (checkRisk s u i sd q = false ↔
      ∃ L, s.risk_limits u = some L ∧
      ∃ m, alookup s.positions u = some m ∧
      ∃ p, alookup m i = some p ∧
        L.max_position < |p.net_qty + (if sd = Side.BUY then q else -q)|) := by
  cases hL : s.risk_limits u with
  | none => simp [checkRisk, hL]
  | some L =>
    cases hm : alookup s.positions u with
    | none => simp [checkRisk, hL, hm]
    | some m =>
      cases hp : alookup m i with
      | none => simp [checkRisk, hL, hm, hp]
      | some p => simp [checkRisk, hL, hm, hp]

/-- C2 counterexample: user 7 has `max_position = 10` and no position,
yet a BUY of 100 is accepted, not rejected with "Risk limit exceeded"
as the claim requires. -/
theorem c2_cex :
    scnRisk.risk_limits 7 =
      some { max_position := 10, max_notional := 1000000, max_orders_per_sec := 50 } ∧
    alookup scnRisk.positions 7 = none ∧
    (submitOrder scnRisk (mkReq 7 Side.BUY 10000 100)).2.success = true ∧
    (submitOrder scnRisk (mkReq 7 Side.BUY 10000 100)).2.error_message ≠
      "Risk limit exceeded" := by
  refine ⟨by decide, by decide, by decide, by decide⟩

lemma signedQty_def (fill : Fill) :
    signedQty fill = if fill.side = Side.BUY then fill.quantity else -fill.quantity := rfl

lemma applyFill_open (pos : Position) (fill : Fill) (h : pos.net_qty = 0) :
    applyFill pos fill =
      { pos with instrument_id := fill.instrument_id, vwap := fill.price
                 net_qty := signedQty fill } := by
  simp [applyFill, h, signedQty]

lemma applyFill_add (pos : Position) (fill : Fill)
    (h : (0 < pos.net_qty ∧ 0 < signedQty fill) ∨
         (pos.net_qty < 0 ∧ signedQty fill < 0)) :
    applyFill pos fill =
      { pos with instrument_id := fill.instrument_id
                 vwap := Int.tdiv (pos.vwap * |pos.net_qty| + fill.price * |signedQty fill|)
                   (|pos.net_qty| + |signedQty fill|)
                 net_qty := pos.net_qty + signedQty fill } := by
  have hn0 : ¬ pos.net_qty = 0 := by rcases h with ⟨h1, _⟩ | ⟨h1, _⟩ <;> omega
  rw [signedQty_def] at h ⊢
  simp only [applyFill, if_neg hn0, if_pos h]

lemma flip_cond_iff (n q : Int) :
    (n + q ≠ 0 ∧ (decide (n + q < 0) ≠ decide (n + q - q < 0))) ↔
    (n + q ≠ 0 ∧ ((n + q < 0) ↔ ¬ (n < 0))) := by
  simp only [ne_eq, decide_eq_decide, Int.add_sub_cancel]
  constructor
  · rintro ⟨h1, h2⟩
    exact ⟨h1, by tauto⟩
  · rintro ⟨h1, h2⟩
    exact ⟨h1, by tauto⟩

lemma applyFill_reduce (pos : Position) (fill : Fill)
    (hn0 : ¬ pos.net_qty = 0)
    (hns : ¬ ((0 < pos.net_qty ∧ 0 < signedQty fill) ∨
              (pos.net_qty < 0 ∧ signedQty fill < 0)))
    (hsmall : |signedQty fill| ≤ |pos.net_qty|) :
    applyFill pos fill =
      { pos with instrument_id := fill.instrument_id
                 realized_pnl := pos.realized_pnl +
                   (if pos.net_qty < 0 then -(((fill.price - pos.vwap : Int) : ℚ) / 100)
                    else ((fill.price - pos.vwap : Int) : ℚ) / 100) *
                     ((min |pos.net_qty| |signedQty fill| : Int) : ℚ)
                 net_qty := pos.net_qty + signedQty fill } := by
  rw [signedQty_def] at hns hsmall ⊢
  have hflip : ¬ (pos.net_qty + (if fill.side = Side.BUY then fill.quantity else -fill.quantity) ≠ 0 ∧
      (decide (pos.net_qty + (if fill.side = Side.BUY then fill.quantity else -fill.quantity) < 0) ≠
       decide (pos.net_qty + (if fill.side = Side.BUY then fill.quantity else -fill.quantity) -
         (if fill.side = Side.BUY then fill.quantity else -fill.quantity) < 0))) := by
    rw [flip_cond_iff]
    cases hs : fill.side <;>
      simp only [hs, reduceIte] at hns hsmall ⊢ <;>
      simp only [Int.abs_eq_natAbs] at hsmall <;> omega
  simp only [applyFill, if_neg hn0, if_neg hns, if_neg hflip]

lemma applyFill_flip (pos : Position) (fill : Fill)
    (hn0 : ¬ pos.net_qty = 0)
    (hns : ¬ ((0 < pos.net_qty ∧ 0 < signedQty fill) ∨
              (pos.net_qty < 0 ∧ signedQty fill < 0)))
    (hbig : |pos.net_qty| < |signedQty fill|) :
    applyFill pos fill =
      { pos with instrument_id := fill.instrument_id
                 realized_pnl := pos.realized_pnl +
                   (if pos.net_qty < 0 then -(((fill.price - pos.vwap : Int) : ℚ) / 100)
                    else ((fill.price - pos.vwap : Int) : ℚ) / 100) *
                     ((min |pos.net_qty| |signedQty fill| : Int) : ℚ)
                 net_qty := pos.net_qty + signedQty fill
                 vwap := fill.price } := by
  rw [signedQty_def] at hns hbig ⊢
  have hflip : (pos.net_qty + (if fill.side = Side.BUY then fill.quantity else -fill.quantity) ≠ 0 ∧
      (decide (pos.net_qty + (if fill.side = Side.BUY then fill.quantity else -fill.quantity) < 0) ≠
       decide (pos.net_qty + (if fill.side = Side.BUY then fill.quantity else -fill.quantity) -
         (if fill.side = Side.BUY then fill.quantity else -fill.quantity) < 0))) := by
    rw [flip_cond_iff]
    cases hs : fill.side <;>
      simp only [hs, reduceIte] at hns hbig ⊢ <;>
      simp only [Int.abs_eq_natAbs] at hbig <;> omega
  simp only [applyFill, if_neg hn0, if_neg hns, if_pos hflip]

lemma addExact_dvd (pos : Position) (fill : Fill)
    (hx : addExact pos fill = true)
    (h0 : ¬ pos.net_qty = 0)
    (hs : (0 < pos.net_qty ∧ 0 < signedQty fill) ∨
          (pos.net_qty < 0 ∧ signedQty fill < 0)) :
    (|pos.net_qty| + |signedQty fill|) ∣
      (pos.vwap * |pos.net_qty| + fill.price * |signedQty fill|) := by
  rw [signedQty_def] at hs
  simp only [addExact, if_neg h0, if_pos hs] at hx
  rw [signedQty_def]
  exact of_decide_eq_true hx

lemma applyFill_net (pos : Position) (fill : Fill) :
    (applyFill pos fill).net_qty = pos.net_qty + signedQty fill := by
  by_cases h0 : pos.net_qty = 0
  · rw [applyFill_open _ _ h0, h0]; simp
  · by_cases hs : (0 < pos.net_qty ∧ 0 < signedQty fill) ∨
        (pos.net_qty < 0 ∧ signedQty fill < 0)
    · rw [applyFill_add _ _ hs]
    · by_cases hsm : |signedQty fill| ≤ |pos.net_qty|
      · rw [applyFill_reduce _ _ h0 hs hsm]
      · rw [applyFill_flip _ _ h0 hs (by omega)]

lemma applyFill_val (pos : Position) (fill : Fill)
    (hx : addExact pos fill = true) :
    posVal (applyFill pos fill) =
      posVal pos - ((fill.price * signedQty fill : Int) : ℚ) / 100 := by
  by_cases h0 : pos.net_qty = 0
  · rw [applyFill_open _ _ h0]
    simp only [posVal, h0]
    push_cast
    ring
  · by_cases hs : (0 < pos.net_qty ∧ 0 < signedQty fill) ∨
        (pos.net_qty < 0 ∧ signedQty fill < 0)
    · rw [applyFill_add _ _ hs]
      have hdvd := addExact_dvd pos fill hx h0 hs
      have key : (Int.tdiv (pos.vwap * |pos.net_qty| + fill.price * |signedQty fill|)
          (|pos.net_qty| + |signedQty fill|)) * (pos.net_qty + signedQty fill) =
          pos.vwap * pos.net_qty + fill.price * signedQty fill := by
        rcases hs with ⟨hn, hq⟩ | ⟨hn, hq⟩
        · rw [abs_of_pos hn, abs_of_pos hq] at hdvd ⊢
          exact Int.tdiv_mul_cancel hdvd
        · rw [abs_of_neg hn, abs_of_neg hq] at hdvd ⊢
          have h2 : -pos.net_qty + -signedQty fill = -(pos.net_qty + signedQty fill) := by ring
          have h3 : pos.vwap * -pos.net_qty + fill.price * -signedQty fill =
              -(pos.vwap * pos.net_qty + fill.price * signedQty fill) := by ring
          rw [h2, h3] at hdvd ⊢
          rw [Int.neg_tdiv_neg]
          have := Int.tdiv_mul_cancel (Int.dvd_neg.mp (Int.neg_dvd.mp hdvd))
          omega
      simp only [posVal]
      rw [key]
      push_cast
      ring
    · by_cases hsm : |signedQty fill| ≤ |pos.net_qty|
      · rw [applyFill_reduce _ _ h0 hs hsm]
        have hmin : min |pos.net_qty| |signedQty fill| = |signedQty fill| :=
          min_eq_right hsm
        rcases lt_or_gt_of_ne (fun h => h0 h) with hn | hn
        · have hq : 0 ≤ signedQty fill := by omega
          rw [hmin, abs_of_nonneg hq]
          simp only [posVal, if_pos hn]
          push_cast
          ring
        · have hq : signedQty fill ≤ 0 := by omega
          rw [hmin, abs_of_nonpos hq]
          simp only [posVal, if_neg (by omega : ¬ pos.net_qty < 0)]
          push_cast
          ring
      · have hbig : |pos.net_qty| < |signedQty fill| := by omega
        rw [applyFill_flip _ _ h0 hs hbig]
        have hmin : min |pos.net_qty| |signedQty fill| = |pos.net_qty| :=
          min_eq_left (le_of_lt hbig)
        rcases lt_or_gt_of_ne (fun h => h0 h) with hn | hn
        · rw [hmin, abs_of_neg hn]
          simp only [posVal, if_pos hn]
          push_cast
          ring
        · rw [hmin, abs_of_pos hn]
          simp only [posVal, if_neg (by omega : ¬ pos.net_qty < 0)]
          push_cast
          ring

lemma applyFill_vwap_nonneg (pos : Position) (fill : Fill)
    (h1 : 0 ≤ pos.vwap) (h2 : 0 ≤ fill.price) :
    0 ≤ (applyFill pos fill).vwap := by
  by_cases h0 : pos.net_qty = 0
  · rw [applyFill_open _ _ h0]; exact h2
  · by_cases hs : (0 < pos.net_qty ∧ 0 < signedQty fill) ∨
        (pos.net_qty < 0 ∧ signedQty fill < 0)
    · rw [applyFill_add _ _ hs]
      exact Int.tdiv_nonneg
        (by positivity)
        (by positivity)
    · by_cases hsm : |signedQty fill| ≤ |pos.net_qty|
      · rw [applyFill_reduce _ _ h0 hs hsm]; exact h1
      · rw [applyFill_flip _ _ h0 hs (by omega)]; exact h2

/-- C4: the three regimes of `Engine::update_position`: opening from
flat sets `net_qty` to the signed quantity and `vwap` to the fill
price; adding on the same side averages the VWAP with C++ integer
(truncating) division and leaves `realized_pnl` alone; reducing or
flipping books `((price − vwap)/100)·min(|net|,|q|)` of realized P&L
(sign-flipped for shorts), keeps `vwap` on a pure reduction, and
re-marks `vwap` to the fill price on a flip. -/
theorem c4_thm (pos : Position) (fill : Fill) :
    (pos.net_qty = 0 →
      (applyFill pos fill).net_qty = signedQty fill ∧
      (applyFill pos fill).vwap = fill.price ∧
      (applyFill pos fill).realized_pnl = pos.realized_pnl) ∧
    ((0 < pos.net_qty ∧ 0 < signedQty fill) ∨ (pos.net_qty < 0 ∧ signedQty fill < 0) →
      (applyFill pos fill).vwap =
        Int.tdiv (pos.vwap * |pos.net_qty| + fill.price * |signedQty fill|)
          (|pos.net_qty| + |signedQty fill|) ∧
      (applyFill pos fill).net_qty = pos.net_qty + signedQty fill ∧
      (applyFill pos fill).realized_pnl = pos.realized_pnl) ∧
    ((0 < pos.net_qty ∧ signedQty fill < 0) ∨ (pos.net_qty < 0 ∧ 0 < signedQty fill) →
      (applyFill pos fill).realized_pnl = pos.realized_pnl +
        (if pos.net_qty < 0 then -(((fill.price - pos.vwap : Int) : ℚ) / 100)
         else ((fill.price - pos.vwap : Int) : ℚ) / 100) *
          ((min |pos.net_qty| |signedQty fill| : Int) : ℚ) ∧
      (applyFill pos fill).net_qty = pos.net_qty + signedQty fill ∧
      (|signedQty fill| ≤ |pos.net_qty| → (applyFill pos fill).vwap = pos.vwap) ∧
      (|pos.net_qty| < |signedQty fill| → (applyFill pos fill).vwap = fill.price)) := by
  refine ⟨?_, ?_, ?_⟩
  · intro h0
    rw [applyFill_open _ _ h0]
    exact ⟨rfl, rfl, rfl⟩
  · intro hs
    rw [applyFill_add _ _ hs]
    exact ⟨rfl, rfl, rfl⟩
  · intro hopp
    have h0 : ¬ pos.net_qty = 0 := by rcases hopp with ⟨h1, _⟩ | ⟨h1, _⟩ <;> omega
    have hns : ¬ ((0 < pos.net_qty ∧ 0 < signedQty fill) ∨
        (pos.net_qty < 0 ∧ signedQty fill < 0)) := by
      rcases hopp with ⟨h1, h2⟩ | ⟨h1, h2⟩ <;> omega
    by_cases hsm : |signedQty fill| ≤ |pos.net_qty|
    · rw [applyFill_reduce _ _ h0 hns hsm]
      exact ⟨rfl, rfl, fun _ => rfl, fun hb => absurd hb (by omega)⟩
    · rw [applyFill_flip _ _ h0 hns (by omega)]
      exact ⟨rfl, rfl, fun hb => absurd hb (by omega), fun _ => rfl⟩

/-- C4 witness: reducing a long 50 by selling 100 flips the position
to net −50. -/
theorem c4_wit :
    (0 : Int) < posLong50.net_qty ∧ signedQty fillSell100 < 0 ∧
    (applyFill posLong50 fillSell100).net_qty = -50 := by
  refine ⟨by decide, by decide, ?_⟩
  have h := (c4_thm posLong50 fillSell100).2.2 (Or.inl ⟨by decide, by decide⟩)
  rw [h.2.1]
  decide

/-- C1 (amended): what survives of the position invariant: `vwap`
stays nonnegative under nonnegative prices through `update_position`,
and `settle_instrument` resets a settled position's `vwap` and
`net_qty` to zero.  The claimed `net_qty = 0 → vwap = 0` invariant is
false for trading states: closing a position through `update_position`
leaves the stale `vwap` in place (see the counterexample). -/
theorem c1_amended :
    (∀ (pos : Position) (fill : Fill), 0 ≤ pos.vwap → 0 ≤ fill.price →
      0 ≤ (applyFill pos fill).vwap) ∧
    (∀ (inst : InstrumentSpec) (v : Int) (pos : Position),
      (settlePosition inst v pos).vwap = 0 ∧ (settlePosition inst v pos).net_qty = 0) :=
  ⟨applyFill_vwap_nonneg, fun _ _ _ => ⟨rfl, rfl⟩⟩

/-- C1 counterexample: after the round trip (buy 100, sell 100) user
1's position has `net_qty = 0` but `vwap = 10000 ≠ 0`. -/
theorem c1_cex :
    ((alookup ((alookup scnRoundTrip.positions 1).getD []) 1).getD Position.init).net_qty = 0 ∧
    ((alookup ((alookup scnRoundTrip.positions 1).getD []) 1).getD Position.init).vwap ≠ 0 := by
  refine ⟨by decide, by decide⟩

/-- C1 witness: the amended nonnegativity at a concrete position and
fill. -/
theorem c1_wit :
    (0 : Int) ≤ Position.init.vwap ∧ (0 : Int) ≤ fillBuy5.price ∧
    0 ≤ (applyFill Position.init fillBuy5).vwap :=
  ⟨by decide, by decide, c1_amended.1 Position.init fillBuy5 (by decide) (by decide)⟩

lemma settle_positions_lookup (id : Nat) (inst : InstrumentSpec) (v : Int)
    (P : PositionsMap) (u : Nat) (m : UserPositions)
    (hm : alookup P u = some m) :
    alookup (P.map (fun entry =>
      match alookup entry.2 id with
      | none => entry
      | some pos =>
        if pos.net_qty = 0 then entry
        else (entry.1, aset entry.2 id (settlePosition inst v pos)))) u =
    some (match alookup m id with
      | none => m
      | some pos =>
        if pos.net_qty = 0 then m
        else aset m id (settlePosition inst v pos)) := by
  induction P with
  | nil => simp [alookup] at hm
  | cons e rest ih =>
    by_cases hu : u = e.1
    · rw [alookup] at hm
      rw [if_pos hu] at hm
      cases hm
      rcases hl : alookup e.2 id with _ | pos
      · simp [alookup, hl, hu]
      · by_cases hz : pos.net_qty = 0
        · simp [alookup, hl, hz, hu]
        · simp [alookup, hl, hz, hu]
    · rw [alookup] at hm
      rw [if_neg hu] at hm
      rcases hl : alookup e.2 id with _ | pos
      · simp only [List.map_cons, alookup, hl]
        rw [if_neg hu]
        exact ih hm
      · by_cases hz : pos.net_qty = 0
        · simp only [List.map_cons, alookup, hl, if_pos hz]
          rw [if_neg hu]
          exact ih hm
        · simp only [List.map_cons, alookup, hl, if_neg hz]
          rw [if_neg hu]
          exact ih hm

/-- C5: `Engine::settle_instrument` on a registered instrument returns
true, halts the instrument, credits every holder of a non-zero position
with payoff minus cost basis (SCALAR/CALL/PUT payoff formulas) and
flattens the position, and every subsequent `submit_order` on the
instrument is rejected with "Instrument is halted". -/
theorem c5_thm (s : EngineState) (id : Nat) (v : Int) (inst : InstrumentSpec)
    (h : s.instruments id = some inst) :
    (settleInstrument s id v).2 = true ∧
    (settleInstrument s id v).1.instruments id = some { inst with is_halted := true } ∧
    (∀ u m pos, alookup s.positions u = some m → alookup m id = some pos →
      pos.net_qty ≠ 0 →
      alookup (settleInstrument s id v).1.positions u = some (aset m id
        { instrument_id := pos.instrument_id
          net_qty := 0
          vwap := 0
          realized_pnl := pos.realized_pnl +
            ((if inst.type = InstrumentType.SCALAR then
                ((v : ℚ) / 100) * (pos.net_qty : ℚ) * inst.tick_value
              else if inst.type = InstrumentType.CALL then
                max 0 (((v - inst.strike : Int) : ℚ) / 100) * (pos.net_qty : ℚ) * inst.tick_value
              else
                max 0 (((inst.strike - v : Int) : ℚ) / 100) * (pos.net_qty : ℚ) * inst.tick_value) -
             ((pos.vwap : ℚ) / 100) * (pos.net_qty : ℚ) * inst.tick_value)
          unrealized_pnl := 0 })) ∧
    (∀ req, req.instrument_id = id →
      (submitOrder (settleInstrument s id v).1 req).2.success = false ∧
      (submitOrder (settleInstrument s id v).1 req).2.error_message = "Instrument is halted" ∧
      (submitOrder (settleInstrument s id v).1 req).2.order_id = 0) := by
  refine ⟨?_, ?_, ?_, ?_⟩
  · simp [settleInstrument, h]
  · simp [settleInstrument, h, setF]
  · intro u m pos hm hp hnz
    simp only [settleInstrument, h]
    rw [settle_positions_lookup id inst v s.positions u m hm, hp]
    show some (if pos.net_qty = 0 then m else aset m id (settlePosition inst v pos)) = _
    rw [if_neg hnz]
    have hsp : settlePosition inst v pos =
        { instrument_id := pos.instrument_id
          net_qty := 0
          vwap := 0
          realized_pnl := pos.realized_pnl +
            ((if inst.type = InstrumentType.SCALAR then
                ((v : ℚ) / 100) * (pos.net_qty : ℚ) * inst.tick_value
              else if inst.type = InstrumentType.CALL then
                max 0 (((v - inst.strike : Int) : ℚ) / 100) * (pos.net_qty : ℚ) * inst.tick_value
              else
                max 0 (((inst.strike - v : Int) : ℚ) / 100) * (pos.net_qty : ℚ) * inst.tick_value) -
             ((pos.vwap : ℚ) / 100) * (pos.net_qty : ℚ) * inst.tick_value)
          unrealized_pnl := 0 } := by
      cases ht : inst.type <;> simp [settlePosition, ht]
    rw [hsp]
  · intro req hreq
    have hl : (settleInstrument s id v).1.instruments req.instrument_id =
        some { inst with is_halted := true } := by
      simp [settleInstrument, h, setF, hreq]
    refine ⟨?_, ?_, ?_⟩ <;> simp [submitOrder, hl]

lemma fetch_eq {heap : Heap} {i : Nat} {o : Order} (h : heap i = some o) :
    fetch heap i = o := by simp [fetch, h]

lemma filter_ne_of_not_mem {l : List Nat} {a : Nat} (h : a ∉ l) :
    l.filter (· ≠ a) = l := by
  induction l with
  | nil => rfl
  | cons x xs ih =>
    simp only [List.mem_cons, not_or] at h
    rw [List.filter_cons]
    simp only [decide_eq_true_eq]
    rw [if_pos (by exact fun hh => h.1 hh.symm), ih h.2]

/-- C3: a post-only order whose limit crosses the best opposite price
is rejected by `OrderBook::add_order`: no fills, status REJECTED, the
book (both sides, `orders_` map, `last_price_`) unchanged, every other
heap order untouched, and the clock unchanged.  The best opposite price
being the head level relies on the sorted-map book sides modelled from
the spec (`order_book.h` is not in the repository). -/
theorem c3_thm (b : Book) (heap : Heap) (clock : Nat) (o : Order)
    (hheap : heap o.id = some o)
    (hfresh : o.id ∉ b.orders)
    (hpo : o.post_only = true)
    (hunfilled : o.filled_quantity < o.quantity)
    (hcross : (o.side = Side.BUY ∧ ∃ p fifo rest, b.asks = (p, fifo) :: rest ∧ p ≤ o.price) ∨
              (o.side = Side.SELL ∧ ∃ p fifo rest, b.bids = (p, fifo) :: rest ∧ o.price ≤ p)) :
    (addOrder b heap clock o.id).1 = b ∧
    (addOrder b heap clock o.id).2.2.2 = [] ∧
    (addOrder b heap clock o.id).2.1 =
      setO heap o.id { o with status := OrderStatus.REJECTED } ∧
    (∀ j, j ≠ o.id → (addOrder b heap clock o.id).2.1 j = heap j) ∧
    (fetch ((addOrder b heap clock o.id).2.1) o.id).status = OrderStatus.REJECTED ∧
    (addOrder b heap clock o.id).2.2.1 = clock := by
  have hfetch : fetch heap o.id = o := fetch_eq hheap
  have hins : insertId b.orders o.id = o.id :: b.orders := by
    simp [insertId, hfresh]
  have fetch_setO : ∀ (h : Heap) (i : Nat) (oo : Order), fetch (setO h i oo) i = oo := by
    intro h i oo
    simp [fetch, setO]
  have step : addOrder b heap clock o.id =
      ({ b with orders := (o.id :: b.orders).filter (· ≠ o.id) },
       setO heap o.id { o with status := OrderStatus.REJECTED }, clock, []) := by
    rcases hcross with ⟨hside, p, fifo, rest, hlv, hp⟩ | ⟨hside, p, fifo, rest, hlv, hp⟩
    · have hcr : (!(decide (o.price < p))) = true := by
        simp [not_lt.mpr hp]
      simp only [addOrder, matchOrder, hins, hfetch, hside, if_pos rfl, hlv,
        matchLoop, if_pos hunfilled, hcr, if_true, hpo, if_pos rfl]
      simp only [fetch_setO, reduceIte]
    · have hcr : (!(decide (p < o.price))) = true := by
        simp [not_lt.mpr hp]
      have hnb : ¬ (o.side = Side.BUY) := by rw [hside]; intro hc; cases hc
      simp only [addOrder, matchOrder, hins, hfetch, if_neg hnb, hlv,
        matchLoop, if_pos hunfilled, hcr, if_true, hpo, if_pos rfl]
      simp only [fetch_setO, reduceIte]
  rw [step]
  refine ⟨?_, rfl, rfl, ?_, ?_, rfl⟩
  · rw [List.filter_cons]
    simp only [decide_eq_true_eq, ne_eq, not_true_eq_false]
    rw [if_neg (by simp), filter_ne_of_not_mem hfresh]
  · intro j hj
    simp [setO, hj]
  · simp [fetch, setO]

lemma fetch_setO (h : Heap) (i : Nat) (o : Order) : fetch (setO h i o) i = o := by
  simp [fetch, setO]

lemma fetch_setO_ne (h : Heap) {i j : Nat} (o : Order) (hne : j ≠ i) :
    fetch (setO h i o) j = fetch h j := by
  simp [fetch, setO, hne]

lemma alookup_aset_self {α : Type} (l : List (Nat × α)) (k : Nat) (v : α) :
    alookup (aset l k v) k = some v := by
  induction l with
  | nil => simp [aset, alookup]
  | cons e rest ih =>
    by_cases h : k = e.1
    · simp [aset, alookup, h]
    · simp [aset, alookup, h, ih]

lemma alookup_aset_ne {α : Type} (l : List (Nat × α)) {k k' : Nat} (v : α)
    (h : k' ≠ k) : alookup (aset l k v) k' = alookup l k' := by
  induction l with
  | nil => simp [aset, alookup, h]
  | cons e rest ih =>
    by_cases he : k = e.1
    · subst he
      simp [aset, alookup, h]
    · by_cases he' : k' = e.1
      · simp [aset, alookup, he, he']
      · simp [aset, alookup, he, he', ih]

lemma innerSum_aset {α : Type} [AddCommGroup α] (g : Position → α)
    (m : UserPositions) (k : Nat) (v : Position) :
    innerSum g (aset m k v) = innerSum g m + g v - ((alookup m k).elim 0 g) := by
  induction m with
  | nil => simp [aset, innerSum, alookup]
  | cons e rest ih =>
    by_cases h : k = e.1
    · simp only [aset, if_pos h, innerSum, List.map_cons, List.sum_cons, alookup,
        Option.elim]
      abel
    · simp only [aset, if_neg h, innerSum, List.map_cons, List.sum_cons, alookup]
      have := ih
      simp only [innerSum] at this
      rw [this]
      abel

lemma posSum_aset {α : Type} [AddCommGroup α] (g : Position → α)
    (P : PositionsMap) (u : Nat) (m' : UserPositions) :
    posSum g (aset P u m') =
      posSum g P + innerSum g m' - ((alookup P u).elim 0 (innerSum g)) := by
  induction P with
  | nil => simp [aset, posSum, alookup]
  | cons e rest ih =>
    by_cases h : u = e.1
    · simp only [aset, if_pos h, posSum, List.map_cons, List.sum_cons, alookup,
        Option.elim]
      abel
    · simp only [aset, if_neg h, posSum, List.map_cons, List.sum_cons, alookup]
      have := ih
      simp only [posSum] at this
      rw [this]
      abel

lemma alookup_of_nodup {α : Type} (P : List (Nat × α))
    (hnd : (P.map Prod.fst).Nodup) (e : Nat × α) (he : e ∈ P) :
    alookup P e.1 = some e.2 := by
  induction P with
  | nil => cases he
  | cons x rest ih =>
    simp only [List.map_cons, List.nodup_cons] at hnd
    rcases List.mem_cons.mp he with rfl | hmem
    · simp [alookup]
    · have hne : e.1 ≠ x.1 := by
        intro hc
        exact hnd.1 (hc ▸ List.mem_map_of_mem Prod.fst hmem)
      simp only [alookup, if_neg hne]
      exact ih hnd.2 hmem

lemma PairedFills_append (oid : Nat) (sd : Side) (iid : Nat) :
    ∀ l1 l2 : List Fill, PairedFills oid sd iid l1 → PairedFills oid sd iid l2 →
      PairedFills oid sd iid (l1 ++ l2)
  | [], _, _, h2 => h2
  | [_], _, h1, _ => absurd h1 (by simp [PairedFills])
  | f1 :: f2 :: rest, l2, h1, h2 => by
    obtain ⟨a1, a2, a3, a4, a5, a6, a7, a8, hrest⟩ := h1
    exact ⟨a1, a2, a3, a4, a5, a6, a7, a8,
      PairedFills_append oid sd iid rest l2 hrest h2⟩

lemma signedQty_flip {f1 f2 : Fill} (hs : f2.side = f1.side.flip)
    (hq : f1.quantity = f2.quantity) : signedQty f2 = -signedQty f1 := by
  cases h1 : f1.side <;> simp [h1, Side.flip] at hs <;>
    simp [signedQty, h1, hs, hq]

lemma coreEq_refl (h : Heap) : coreEq h h := fun _ => ⟨rfl, rfl, rfl, rfl, rfl, rfl, rfl⟩

lemma coreEq_trans {h1 h2 h3 : Heap} (a : coreEq h1 h2) (b : coreEq h2 h3) :
    coreEq h1 h3 := by
  intro j
  obtain ⟨a1, a2, a3, a4, a5, a6, a7⟩ := a j
  obtain ⟨b1, b2, b3, b4, b5, b6, b7⟩ := b j
  exact ⟨b1.trans a1, b2.trans a2, b3.trans a3, b4.trans a4,
    b5.trans a5, b6.trans a6, b7.trans a7⟩

lemma coreEq_setO {h h₁ : Heap} (c : coreEq h h₁) (i : Nat) (o' : Order)
    (hid : o'.id = (fetch h i).id) (hside : o'.side = (fetch h i).side)
    (hprice : o'.price = (fetch h i).price)
    (hqty : o'.quantity = (fetch h i).quantity)
    (huser : o'.user_id = (fetch h i).user_id)
    (htif : o'.tif = (fetch h i).tif)
    (hpo : o'.post_only = (fetch h i).post_only) :
    coreEq h (setO h₁ i o') := by
  intro j
  by_cases hj : j = i
  · subst hj
    rw [fetch_setO]
    exact ⟨hid, hside, hprice, hqty, huser, htif, hpo⟩
  · rw [fetch_setO_ne h₁ _ hj]
    exact c j

lemma coreEq_setO_fq {h h₁ : Heap} (c : coreEq h h₁) (i : Nat) (fq : Int) :
    coreEq h (setO h₁ i { fetch h i with filled_quantity := fq }) :=
  coreEq_setO c i _ rfl rfl rfl rfl rfl rfl rfl

lemma coreEq_setO_fq_st {h h₁ : Heap} (c : coreEq h h₁) (i : Nat) (fq : Int)
    (stt : OrderStatus) :
    coreEq h (setO h₁ i { fetch h i with filled_quantity := fq, status := stt }) :=
  coreEq_setO c i _ rfl rfl rfl rfl rfl rfl rfl

lemma coreEq_setO_st {h h₁ : Heap} (c : coreEq h h₁) (i : Nat)
    (stt : OrderStatus) :
    coreEq h (setO h₁ i { fetch h i with status := stt }) :=
  coreEq_setO c i _ rfl rfl rfl rfl rfl rfl rfl

lemma matchAtLevel_core (iid oid : Nat) (p : Int) :
    ∀ (fifo : List Nat) (st : MatchSt),
      coreEq st.heap (matchAtLevel iid oid p st fifo).1.heap
  | [], st => by
    rw [matchAtLevel]
    exact coreEq_refl _
  | pid :: rest, st => by
    rw [matchAtLevel]
    by_cases hc : (fetch st.heap oid).filled_quantity < (fetch st.heap oid).quantity
    · rw [if_pos hc]
      by_cases hpop : (fetch st.heap pid).quantity ≤
          (fetch st.heap pid).filled_quantity +
            min ((fetch st.heap oid).quantity - (fetch st.heap oid).filled_quantity)
              ((fetch st.heap pid).quantity - (fetch st.heap pid).filled_quantity)
      · rw [if_pos hpop]
        exact coreEq_trans
          (coreEq_setO_fq_st
            (coreEq_setO_fq (coreEq_setO_fq (coreEq_refl _) oid _) pid _) pid _ _)
          (matchAtLevel_core iid oid p rest _)
      · rw [if_neg hpop]
        exact coreEq_setO_fq_st
          (coreEq_setO_fq (coreEq_setO_fq (coreEq_refl _) oid _) pid _) pid _ _
    · rw [if_neg hc]
      exact coreEq_refl _

lemma matchLoop_core (iid oid : Nat) (cross : Int → Bool) :
    ∀ (levels : List (Int × List Nat)) (st : MatchSt),
      coreEq st.heap (matchLoop iid oid cross st levels).1.heap
  | [], st => by
    rw [matchLoop]
    exact coreEq_refl _
  | (p, fifo) :: rest, st => by
    rw [matchLoop]
    by_cases hc : (fetch st.heap oid).filled_quantity < (fetch st.heap oid).quantity
    · rw [if_pos hc]
      by_cases hcr : cross p
      · rw [if_pos hcr]
        by_cases hpo : (fetch st.heap oid).post_only
        · rw [if_pos hpo]
          exact coreEq_setO_st (coreEq_refl _) oid _
        · rw [if_neg hpo]
          by_cases hfin : (matchAtLevel iid oid p st fifo).2.2.isEmpty
          · rw [if_pos hfin]
            exact coreEq_trans (matchAtLevel_core iid oid p fifo st)
              (matchLoop_core iid oid cross rest _)
          · rw [if_neg hfin]
            exact matchAtLevel_core iid oid p fifo st
      · rw [if_neg hcr]
        exact coreEq_refl _
    · rw [if_neg hc]
      exact coreEq_refl _

lemma matchAtLevel_paired (iid oid : Nat) (p : Int) (sd : Side) :
    ∀ (fifo : List Nat) (st : MatchSt),
      (fetch st.heap oid).id = oid →
      (fetch st.heap oid).side = sd →
      oid ∉ fifo →
      (∀ pid ∈ fifo, (fetch st.heap pid).side = sd.flip) →
      PairedFills oid sd iid (matchAtLevel iid oid p st fifo).2.1
  | [], st, _, _, _, _ => by
    rw [matchAtLevel]
    trivial
  | pid :: rest, st, hid, hside, hmem, hsides => by
    have hpidmem : pid ∈ pid :: rest := List.mem_cons_self pid rest
    have hoidne : oid ∉ rest := fun hx => hmem (List.mem_cons_of_mem pid hx)
    have hoidpid : oid ≠ pid := fun hx => hmem (hx ▸ hpidmem)
    rw [matchAtLevel]
    by_cases hc : (fetch st.heap oid).filled_quantity < (fetch st.heap oid).quantity
    · rw [if_pos hc]
      by_cases hpop : (fetch st.heap pid).quantity ≤
          (fetch st.heap pid).filled_quantity +
            min ((fetch st.heap oid).quantity - (fetch st.heap oid).filled_quantity)
              ((fetch st.heap pid).quantity - (fetch st.heap pid).filled_quantity)
      · rw [if_pos hpop]
        refine ⟨hid, hside, hsides pid hpidmem, rfl, rfl, rfl, rfl, rfl, ?_⟩
        refine matchAtLevel_paired iid oid p sd rest _ ?_ ?_ hoidne ?_
        · exact ((coreEq_setO_fq_st
            (coreEq_setO_fq (coreEq_setO_fq (coreEq_refl _) oid _) pid _)
            pid _ _) oid).1.trans hid
        · exact ((coreEq_setO_fq_st
            (coreEq_setO_fq (coreEq_setO_fq (coreEq_refl _) oid _) pid _)
            pid _ _) oid).2.1.trans hside
        · intro pid' hmem'
          exact ((coreEq_setO_fq_st
            (coreEq_setO_fq (coreEq_setO_fq (coreEq_refl _) oid _) pid _)
            pid _ _) pid').2.1.trans
            (hsides pid' (List.mem_cons_of_mem pid hmem'))
      · rw [if_neg hpop]
        exact ⟨hid, hside, hsides pid hpidmem, rfl, rfl, rfl, rfl, rfl, trivial⟩
    · rw [if_neg hc]
      trivial

lemma levelIds_cons (p : Int) (fifo : List Nat) (rest : List (Int × List Nat)) :
    levelIds ((p, fifo) :: rest) = fifo ++ levelIds rest := by
  simp [levelIds]

lemma matchLoop_paired (iid oid : Nat) (cross : Int → Bool) (sd : Side) :
    ∀ (levels : List (Int × List Nat)) (st : MatchSt),
      (fetch st.heap oid).id = oid →
      (fetch st.heap oid).side = sd →
      oid ∉ levelIds levels →
      (∀ pid ∈ levelIds levels, (fetch st.heap pid).side = sd.flip) →
      PairedFills oid sd iid (matchLoop iid oid cross st levels).2.1
  | [], st, _, _, _, _ => by
    rw [matchLoop]
    trivial
  | (p, fifo) :: rest, st, hid, hside, hmem, hsides => by
    rw [levelIds_cons] at hmem hsides
    have hmf : oid ∉ fifo := fun hx => hmem (List.mem_append_left _ hx)
    have hmr : oid ∉ levelIds rest := fun hx => hmem (List.mem_append_right _ hx)
    have hsf : ∀ pid ∈ fifo, (fetch st.heap pid).side = sd.flip :=
      fun pid hx => hsides pid (List.mem_append_left _ hx)
    have hsr : ∀ pid ∈ levelIds rest, (fetch st.heap pid).side = sd.flip :=
      fun pid hx => hsides pid (List.mem_append_right _ hx)
    rw [matchLoop]
    by_cases hc : (fetch st.heap oid).filled_quantity < (fetch st.heap oid).quantity
    · rw [if_pos hc]
      by_cases hcr : cross p
      · rw [if_pos hcr]
        by_cases hpo : (fetch st.heap oid).post_only
        · rw [if_pos hpo]
          trivial
        · rw [if_neg hpo]
          have cc := matchAtLevel_core iid oid p fifo st
          by_cases hfin : (matchAtLevel iid oid p st fifo).2.2.isEmpty
          · rw [if_pos hfin]
            refine PairedFills_append oid sd iid _ _
              (matchAtLevel_paired iid oid p sd fifo st hid hside hmf hsf) ?_
            refine matchLoop_paired iid oid cross sd rest _ ?_ ?_ hmr ?_
            · exact (cc oid).1.trans hid
            · exact (cc oid).2.1.trans hside
            · intro pid hx
              exact (cc pid).2.1.trans (hsr pid hx)
          · rw [if_neg hfin]
            exact matchAtLevel_paired iid oid p sd fifo st hid hside hmf hsf
      · rw [if_neg hcr]
        trivial
    · rw [if_neg hc]
      trivial

lemma matchOrder_paired (b : Book) (heap : Heap) (clock : Nat) (oid : Nat)
    (hid : (fetch heap oid).id = oid)
    (hbids : ∀ id ∈ levelIds b.bids, (fetch heap id).side = Side.BUY)
    (hasks : ∀ id ∈ levelIds b.asks, (fetch heap id).side = Side.SELL)
    (hmb : oid ∉ levelIds b.bids) (hma : oid ∉ levelIds b.asks) :
    PairedFills oid (fetch heap oid).side b.instrument_id
      (matchOrder b heap clock oid).2.2.2 := by
  rw [matchOrder]
  by_cases hs : (fetch heap oid).side = Side.BUY
  · rw [if_pos hs]
    refine matchLoop_paired b.instrument_id oid _ _ b.asks
      { heap := heap, clock := clock, last := b.last_price, orders := b.orders }
      hid rfl hma ?_
    intro pid hx
    rw [hs, Side.flip]
    exact hasks pid hx
  · rw [if_neg hs]
    have hsell : (fetch heap oid).side = Side.SELL := by
      cases h : (fetch heap oid).side
      · exact absurd h hs
      · rfl
    refine matchLoop_paired b.instrument_id oid _ _ b.bids
      { heap := heap, clock := clock, last := b.last_price, orders := b.orders }
      hid rfl hmb ?_
    intro pid hx
    rw [hsell, Side.flip]
    exact hbids pid hx

lemma addOrder_fills (b : Book) (heap : Heap) (clock : Nat) (oid : Nat) :
    (addOrder b heap clock oid).2.2.2 =
      (matchOrder { b with orders := insertId b.orders oid } heap clock oid).2.2.2 := by
  rw [addOrder]
  split_ifs <;> rfl

lemma addOrder_paired (b : Book) (heap : Heap) (clock : Nat) (oid : Nat)
    (hid : (fetch heap oid).id = oid)
    (hbids : ∀ id ∈ levelIds b.bids, (fetch heap id).side = Side.BUY)
    (hasks : ∀ id ∈ levelIds b.asks, (fetch heap id).side = Side.SELL)
    (hmb : oid ∉ levelIds b.bids) (hma : oid ∉ levelIds b.asks) :
    PairedFills oid (fetch heap oid).side b.instrument_id
      (addOrder b heap clock oid).2.2.2 := by
  rw [addOrder_fills]
  exact matchOrder_paired { b with orders := insertId b.orders oid }
    heap clock oid hid hbids hasks hmb hma

lemma posSum_updatePosition {α : Type} [AddCommGroup α] (g : Position → α)
    (hg0 : g Position.init = 0) (P : PositionsMap) (u : Nat) (fill : Fill) :
    posSum g (updatePosition P u fill) =
      posSum g P + g (applyFill (posOf P u fill.instrument_id) fill) -
        g (posOf P u fill.instrument_id) := by
  rw [updatePosition, posSum_aset, innerSum_aset]
  have h1 : (alookup P u).elim 0 (innerSum g) =
      innerSum g ((alookup P u).getD []) := by
    cases h : alookup P u
    · simp [innerSum]
    · simp
  have h2 : (alookup ((alookup P u).getD []) fill.instrument_id).elim 0 g =
      g (posOf P u fill.instrument_id) := by
    rw [posOf]
    cases h : alookup ((alookup P u).getD []) fill.instrument_id
    · simp [hg0]
    · simp
  rw [h1, h2, posOf]
  abel

lemma posVal_init : posVal Position.init = 0 := by
  simp [posVal, Position.init]

lemma net_init : (Position.init).net_qty = 0 := rfl

lemma mem_aset {α : Type} : ∀ (l : List (Nat × α)) (k : Nat) (v : α)
    (e : Nat × α), e ∈ aset l k v → e ∈ l ∨ e = (k, v)
  | [], k, v, e, he => by
    simp [aset] at he
    exact Or.inr (by simp [he])
  | x :: rest, k, v, e, he => by
    by_cases h : k = x.1
    · rw [aset, if_pos h] at he
      rcases List.mem_cons.mp he with rfl | hm
      · exact Or.inr rfl
      · exact Or.inl (List.mem_cons_of_mem _ hm)
    · rw [aset, if_neg h] at he
      rcases List.mem_cons.mp he with rfl | hm
      · exact Or.inl (List.mem_cons_self _ _)
      · rcases mem_aset rest k v e hm with h1 | h2
        · exact Or.inl (List.mem_cons_of_mem _ h1)
        · exact Or.inr h2

lemma mem_keys_aset {α : Type} : ∀ (l : List (Nat × α)) (k : Nat) (v : α)
    (a : Nat), a ∈ (aset l k v).map Prod.fst → a ∈ l.map Prod.fst ∨ a = k
  | [], k, v, a, ha => by
    simp [aset] at ha
    exact Or.inr ha
  | x :: rest, k, v, a, ha => by
    by_cases h : k = x.1
    · rw [aset, if_pos h] at ha
      simp only [List.map_cons, List.mem_cons] at ha
      rcases ha with h1 | h2
      · exact Or.inr h1
      · exact Or.inl (by
          simp only [List.map_cons, List.mem_cons]
          exact Or.inr h2)
    · rw [aset, if_neg h] at ha
      simp only [List.map_cons, List.mem_cons] at ha
      rcases ha with h1 | h2
      · exact Or.inl (by
          simp only [List.map_cons, List.mem_cons]
          exact Or.inl h1)
      · rcases mem_keys_aset rest k v a h2 with h3 | h4
        · exact Or.inl (by
            simp only [List.map_cons, List.mem_cons]
            exact Or.inr h3)
        · exact Or.inr h4

lemma aset_keys_nodup {α : Type} : ∀ (l : List (Nat × α)) (k : Nat) (v : α),
    (l.map Prod.fst).Nodup → ((aset l k v).map Prod.fst).Nodup
  | [], k, v, _ => by simp [aset]
  | x :: rest, k, v, hnd => by
    simp only [List.map_cons, List.nodup_cons] at hnd
    by_cases h : k = x.1
    · rw [aset, if_pos h]
      simp only [List.map_cons, List.nodup_cons]
      exact ⟨h ▸ hnd.1, hnd.2⟩
    · rw [aset, if_neg h]
      simp only [List.map_cons, List.nodup_cons]
      refine ⟨fun hc => ?_, aset_keys_nodup rest k v hnd.2⟩
      rcases mem_keys_aset rest k v x.1 hc with h1 | h2
      · exact hnd.1 h1
      · exact h h2.symm

lemma processFills_positions :
    ∀ (fills : List Fill) (P : PositionsMap) (fh : List Fill)
      (th : List TradeRecord) (c : Nat),
      (processFills P fh th c fills).1 = updFold P fills
  | [], P, fh, th, c => rfl
  | [f], P, fh, th, c => rfl
  | f1 :: f2 :: rest, P, fh, th, c => by
    rw [processFills]
    exact processFills_positions rest _ _ _ _

lemma fillsExact_cons (P : PositionsMap) (f : Fill) (rest : List Fill) :
    fillsExact P (f :: rest) = true ↔
      addExact (posOf P f.user_id f.instrument_id) f = true ∧
      fillsExact (updatePosition P f.user_id f) rest = true := by
  rw [fillsExact, Bool.and_eq_true]
  rfl

lemma paired_instruments (oid : Nat) (sd : Side) (iid : Nat) :
    ∀ fills, PairedFills oid sd iid fills → ∀ f ∈ fills, f.instrument_id = iid
  | [], _, f, hf => absurd hf (List.not_mem_nil f)
  | [_], h, _, _ => absurd h (by simp [PairedFills])
  | f1 :: f2 :: rest, h, f, hf => by
    obtain ⟨_, _, _, h4, h5, _, _, _, hrest⟩ := h
    rcases List.mem_cons.mp hf with rfl | hf'
    · exact h4
    · rcases List.mem_cons.mp hf' with rfl | hf'' 
      · exact h5
      · exact paired_instruments oid sd iid rest hrest f hf''

lemma updFold_paired_sums (oid : Nat) (sd : Side) (iid : Nat) :
    ∀ (fills : List Fill) (P : PositionsMap),
      PairedFills oid sd iid fills → fillsExact P fills = true →
      posSum (fun p => p.net_qty) (updFold P fills) =
        posSum (fun p => p.net_qty) P ∧
      posSum posVal (updFold P fills) = posSum posVal P
  | [], P, _, _ => ⟨rfl, rfl⟩
  | [_], P, h, _ => absurd h (by simp [PairedFills])
  | f1 :: f2 :: rest, P, h, hx => by
    obtain ⟨_, hs1, hs2, _, _, hp, hq, _, hrest⟩ := h
    rw [fillsExact_cons] at hx
    obtain ⟨he1, hx2⟩ := hx
    rw [fillsExact_cons] at hx2
    obtain ⟨he2, hx3⟩ := hx2
    have hflip2 : f2.side = f1.side.flip := by rw [hs2, hs1]
    have hq2 : signedQty f2 = -signedQty f1 := signedQty_flip hflip2 hq
    have hfold : updFold P (f1 :: f2 :: rest) =
        updFold (updatePosition (updatePosition P f1.user_id f1) f2.user_id f2) rest := rfl
    have IH := updFold_paired_sums oid sd iid rest
      (updatePosition (updatePosition P f1.user_id f1) f2.user_id f2) hrest hx3
    constructor
    · rw [hfold, IH.1]
      rw [posSum_updatePosition (fun p => p.net_qty) rfl,
          posSum_updatePosition (fun p => p.net_qty) rfl]
      simp only [applyFill_net]
      rw [hq2]
      ring
    · rw [hfold, IH.2]
      rw [posSum_updatePosition posVal posVal_init,
          posSum_updatePosition posVal posVal_init]
      rw [applyFill_val _ _ he1, applyFill_val _ _ he2]
      rw [hq2, ← hp]
      push_cast
      ring

lemma alookup_mem {α : Type} : ∀ (l : List (Nat × α)) (u : Nat) (m : α),
    alookup l u = some m → (u, m) ∈ l ∨ ∃ u', (u', m) ∈ l
  | [], u, m, h => by simp [alookup] at h
  | e :: rest, u, m, h => by
    by_cases hu : u = e.1
    · rw [alookup, if_pos hu] at h
      cases h
      exact Or.inr ⟨e.1, by
        have : e = (e.1, e.2) := rfl
        rw [this] at *
        exact List.mem_cons_self _ _⟩
    · rw [alookup, if_neg hu] at h
      rcases alookup_mem rest u m h with h1 | ⟨u', h2⟩
      · exact Or.inl (List.mem_cons_of_mem _ h1)
      · exact Or.inr ⟨u', List.mem_cons_of_mem _ h2⟩

lemma shape_lookup {i : Nat} {P : PositionsMap} (h : ShapeOK i P) (u : Nat) :
    (alookup P u).getD [] = [] ∨
    ∃ pos, (alookup P u).getD [] = [(i, pos)] := by
  cases hm : alookup P u with
  | none => exact Or.inl rfl
  | some m =>
    rcases alookup_mem P u m hm with h1 | ⟨u', h2⟩
    · simpa using h (u, m) h1
    · simpa using h (u', m) h2

lemma updatePosition_shape {i : Nat} {P : PositionsMap} (h : ShapeOK i P)
    (u : Nat) (fill : Fill) (hf : fill.instrument_id = i) :
    ShapeOK i (updatePosition P u fill) := by
  intro e he
  rcases mem_aset _ _ _ _ he with hold | rfl
  · exact h e hold
  · right
    rw [hf] at he ⊢
    rcases shape_lookup h u with hm | ⟨pos, hm⟩
    · rw [hm]
      exact ⟨_, rfl⟩
    · rw [hm]
      exact ⟨applyFill ((alookup [(i, pos)] i).getD Position.init) fill, by
        show aset [(i, pos)] i _ = _
        rw [aset, if_pos rfl]⟩

lemma updFold_shape {i : Nat} :
    ∀ (fills : List Fill) (P : PositionsMap), ShapeOK i P →
      (∀ f ∈ fills, f.instrument_id = i) → ShapeOK i (updFold P fills)
  | [], P, h, _ => h
  | f :: rest, P, h, hi => by
    rw [updFold]
    exact updFold_shape rest _
      (updatePosition_shape h f.user_id f (hi f (List.mem_cons_self _ _)))
      (fun g hg => hi g (List.mem_cons_of_mem _ hg))

lemma updatePosition_nodup {P : PositionsMap}
    (h : (P.map Prod.fst).Nodup) (u : Nat) (fill : Fill) :
    ((updatePosition P u fill).map Prod.fst).Nodup :=
  aset_keys_nodup P u _ h

lemma updFold_nodup :
    ∀ (fills : List Fill) (P : PositionsMap), (P.map Prod.fst).Nodup →
      ((updFold P fills).map Prod.fst).Nodup
  | [], _, h => h
  | f :: rest, P, h => updFold_nodup rest _ (updatePosition_nodup h f.user_id f)

lemma matchAtLevel_fifo_subset (iid oid : Nat) (p : Int) :
    ∀ (fifo : List Nat) (st : MatchSt) (id : Nat),
      id ∈ (matchAtLevel iid oid p st fifo).2.2 → id ∈ fifo
  | [], st, id => by
    rw [matchAtLevel]
    exact fun h => h
  | pid :: rest, st, id => by
    rw [matchAtLevel]
    by_cases hc : (fetch st.heap oid).filled_quantity < (fetch st.heap oid).quantity
    · rw [if_pos hc]
      by_cases hpop : (fetch st.heap pid).quantity ≤
          (fetch st.heap pid).filled_quantity +
            min ((fetch st.heap oid).quantity - (fetch st.heap oid).filled_quantity)
              ((fetch st.heap pid).quantity - (fetch st.heap pid).filled_quantity)
      · rw [if_pos hpop]
        intro h
        exact List.mem_cons_of_mem pid (matchAtLevel_fifo_subset iid oid p rest _ id h)
      · rw [if_neg hpop]
        exact fun h => h
    · rw [if_neg hc]
      exact fun h => h

lemma matchLoop_levels_subset (iid oid : Nat) (cross : Int → Bool) :
    ∀ (levels : List (Int × List Nat)) (st : MatchSt) (id : Nat),
      id ∈ levelIds (matchLoop iid oid cross st levels).2.2 → id ∈ levelIds levels
  | [], st, id => by
    rw [matchLoop]
    exact fun h => h
  | (p, fifo) :: rest, st, id => by
    rw [matchLoop, levelIds_cons]
    by_cases hc : (fetch st.heap oid).filled_quantity < (fetch st.heap oid).quantity
    · rw [if_pos hc]
      by_cases hcr : cross p
      · rw [if_pos hcr]
        by_cases hpo : (fetch st.heap oid).post_only
        · rw [if_pos hpo]
          rw [levelIds_cons]
          exact fun h => h
        · rw [if_neg hpo]
          by_cases hfin : (matchAtLevel iid oid p st fifo).2.2.isEmpty
          · rw [if_pos hfin]
            intro h
            exact List.mem_append_right _
              (matchLoop_levels_subset iid oid cross rest _ id h)
          · rw [if_neg hfin]
            rw [levelIds_cons]
            intro h
            rcases List.mem_append.mp h with h1 | h2
            · exact List.mem_append_left _
                (matchAtLevel_fifo_subset iid oid p fifo st id h1)
            · exact List.mem_append_right _ h2
      · rw [if_neg hcr, levelIds_cons]
        exact fun h => h
    · rw [if_neg hc, levelIds_cons]
      exact fun h => h

lemma matchOrder_core (b : Book) (heap : Heap) (clock oid : Nat) :
    coreEq heap (matchOrder b heap clock oid).2.1 := by
  rw [matchOrder]
  split_ifs <;> exact matchLoop_core _ _ _ _ _

lemma matchOrder_book (b : Book) (heap : Heap) (clock oid : Nat) :
    (matchOrder b heap clock oid).1.instrument_id = b.instrument_id ∧
    (∀ id ∈ levelIds (matchOrder b heap clock oid).1.bids, id ∈ levelIds b.bids) ∧
    (∀ id ∈ levelIds (matchOrder b heap clock oid).1.asks, id ∈ levelIds b.asks) := by
  rw [matchOrder]
  split_ifs
  · exact ⟨rfl, fun id h => h, fun id h => matchLoop_levels_subset _ _ _ _ _ id h⟩
  · exact ⟨rfl, fun id h => matchLoop_levels_subset _ _ _ _ _ id h, fun id h => h⟩

lemma mem_levelIds_addLevel (before : Int → Int → Bool) :
    ∀ (levels : List (Int × List Nat)) (p : Int) (oid id : Nat),
      id ∈ levelIds (addLevel before levels p oid) →
      id ∈ levelIds levels ∨ id = oid
  | [], p, oid, id => by
    rw [addLevel]
    intro h
    simp [levelIds] at h
    exact Or.inr h
  | (q, fifo) :: rest, p, oid, id => by
    rw [addLevel]
    by_cases h1 : p = q
    · rw [if_pos h1, levelIds_cons, levelIds_cons]
      intro h
      rcases List.mem_append.mp h with ha | hb
      · rcases List.mem_append.mp ha with hc | hd
        · exact Or.inl (List.mem_append_left _ hc)
        · simp at hd
          exact Or.inr hd
      · exact Or.inl (List.mem_append_right _ hb)
    · rw [if_neg h1]
      by_cases h2 : before p q
      · rw [if_pos h2, levelIds_cons, levelIds_cons]
        intro h
        rcases List.mem_append.mp h with ha | hb
        · simp at ha
          exact Or.inr ha
        · exact Or.inl hb
      · rw [if_neg h2, levelIds_cons, levelIds_cons]
        intro h
        rcases List.mem_append.mp h with ha | hb
        · exact Or.inl (List.mem_append_left _ ha)
        · rcases mem_levelIds_addLevel before rest p oid id hb with hc | hd
          · exact Or.inl (List.mem_append_right _ hc)
          · exact Or.inr hd

lemma addOrder_sides (b : Book) (heap : Heap) (clock oid : Nat)
    (hid : (fetch heap oid).id = oid)
    (hbids : ∀ id ∈ levelIds b.bids, (fetch heap id).side = Side.BUY ∧ id < oid)
    (hasks : ∀ id ∈ levelIds b.asks, (fetch heap id).side = Side.SELL ∧ id < oid) :
    (∀ id ∈ levelIds (addOrder b heap clock oid).1.bids,
      (fetch (addOrder b heap clock oid).2.1 id).side = Side.BUY ∧ id < oid + 1) ∧
    (∀ id ∈ levelIds (addOrder b heap clock oid).1.asks,
      (fetch (addOrder b heap clock oid).2.1 id).side = Side.SELL ∧ id < oid + 1) ∧
    (addOrder b heap clock oid).1.instrument_id = b.instrument_id := by
  have hb := matchOrder_book { b with orders := insertId b.orders oid } heap clock oid
  have hc := matchOrder_core { b with orders := insertId b.orders oid } heap clock oid
  rw [addOrder]
  by_cases hrej : (fetch (matchOrder { b with orders := insertId b.orders oid }
      heap clock oid).2.1 oid).status = OrderStatus.REJECTED
  · rw [if_pos hrej]
    refine ⟨fun id hm => ?_, fun id hm => ?_, hb.1⟩
    · have h0 := hbids id (hb.2.1 id hm)
      exact ⟨(hc id).2.1.trans h0.1, Nat.lt_succ_of_lt h0.2⟩
    · have h0 := hasks id (hb.2.2 id hm)
      exact ⟨(hc id).2.1.trans h0.1, Nat.lt_succ_of_lt h0.2⟩
  · rw [if_neg hrej]
    have hoid_id : (fetch (matchOrder { b with orders := insertId b.orders oid }
        heap clock oid).2.1 oid).id = oid := (hc oid).1.trans hid
    by_cases hbook : (fetch (matchOrder { b with orders := insertId b.orders oid }
        heap clock oid).2.1 oid).filled_quantity <
        (fetch (matchOrder { b with orders := insertId b.orders oid }
          heap clock oid).2.1 oid).quantity ∧
        (fetch (matchOrder { b with orders := insertId b.orders oid }
          heap clock oid).2.1 oid).tif ≠ TimeInForce.IOC
    · rw [if_pos hbook]
      rw [addToBook]
      by_cases hs : (fetch (matchOrder { b with orders := insertId b.orders oid }
          heap clock oid).2.1 oid).side = Side.BUY
      · rw [if_pos hs]
        refine ⟨fun id hm => ?_, fun id hm => ?_, hb.1⟩
        · rcases mem_levelIds_addLevel _ _ _ _ id hm with hold | hnew
          · have h0 := hbids id (hb.2.1 id hold)
            rw [fetch_setO_ne _ _ (Nat.ne_of_lt h0.2)]
            exact ⟨(hc id).2.1.trans h0.1, Nat.lt_succ_of_lt h0.2⟩
          · rw [hoid_id] at hnew
            subst hnew
            rw [fetch_setO]
            exact ⟨hs, Nat.lt_succ_self _⟩
        · have h0 := hasks id (hb.2.2 id hm)
          rw [fetch_setO_ne _ _ (Nat.ne_of_lt h0.2)]
          exact ⟨(hc id).2.1.trans h0.1, Nat.lt_succ_of_lt h0.2⟩
      · rw [if_neg hs]
        have hsell : (fetch (matchOrder { b with orders := insertId b.orders oid }
            heap clock oid).2.1 oid).side = Side.SELL := by
          cases h : (fetch (matchOrder { b with orders := insertId b.orders oid }
              heap clock oid).2.1 oid).side
          · exact absurd h hs
          · rfl
        refine ⟨fun id hm => ?_, fun id hm => ?_, hb.1⟩
        · have h0 := hbids id (hb.2.1 id hm)
          rw [fetch_setO_ne _ _ (Nat.ne_of_lt h0.2)]
          exact ⟨(hc id).2.1.trans h0.1, Nat.lt_succ_of_lt h0.2⟩
        · rcases mem_levelIds_addLevel _ _ _ _ id hm with hold | hnew
          · have h0 := hasks id (hb.2.2 id hold)
            rw [fetch_setO_ne _ _ (Nat.ne_of_lt h0.2)]
            exact ⟨(hc id).2.1.trans h0.1, Nat.lt_succ_of_lt h0.2⟩
          · rw [hoid_id] at hnew
            subst hnew
            rw [fetch_setO]
            exact ⟨hsell, Nat.lt_succ_self _⟩
    · rw [if_neg hbook]
      by_cases hfull : (fetch (matchOrder { b with orders := insertId b.orders oid }
          heap clock oid).2.1 oid).quantity ≤
          (fetch (matchOrder { b with orders := insertId b.orders oid }
            heap clock oid).2.1 oid).filled_quantity
      · rw [if_pos hfull]
        refine ⟨fun id hm => ?_, fun id hm => ?_, hb.1⟩
        · have h0 := hbids id (hb.2.1 id hm)
          rw [fetch_setO_ne _ _ (Nat.ne_of_lt h0.2)]
          exact ⟨(hc id).2.1.trans h0.1, Nat.lt_succ_of_lt h0.2⟩
        · have h0 := hasks id (hb.2.2 id hm)
          rw [fetch_setO_ne _ _ (Nat.ne_of_lt h0.2)]
          exact ⟨(hc id).2.1.trans h0.1, Nat.lt_succ_of_lt h0.2⟩
      · rw [if_neg hfull]
        refine ⟨fun id hm => ?_, fun id hm => ?_, hb.1⟩
        · have h0 := hbids id (hb.2.1 id hm)
          rw [fetch_setO_ne _ _ (Nat.ne_of_lt h0.2)]
          exact ⟨(hc id).2.1.trans h0.1, Nat.lt_succ_of_lt h0.2⟩
        · have h0 := hasks id (hb.2.2 id hm)
          rw [fetch_setO_ne _ _ (Nat.ne_of_lt h0.2)]
          exact ⟨(hc id).2.1.trans h0.1, Nat.lt_succ_of_lt h0.2⟩

lemma addOrder_core (b : Book) (heap : Heap) (clock oid : Nat) :
    coreEq heap (addOrder b heap clock oid).2.1 := by
  have hc := matchOrder_core { b with orders := insertId b.orders oid } heap clock oid
  rw [addOrder]
  split_ifs <;>
    first
      | exact hc
      | exact coreEq_trans hc (coreEq_setO_st (coreEq_refl _) oid _)

lemma inv_submit {i : Nat} {s : EngineState} (inv : TraceInv i s)
    (req : OrderRequest)
    (hx : fillsExact s.positions (submitOrder s req).2.fills = true) :
    TraceInv i (submitOrder s req).1 := by
  cases hinst : s.instruments req.instrument_id with
  | none =>
    simp only [submitOrder, hinst]
    exact ⟨inv.nodup, inv.shape, inv.net_sum, inv.val_sum, inv.inst_none,
      inv.inst_some, inv.books_none, inv.book_inst, inv.sides_bids, inv.sides_asks⟩
  | some inst =>
    have hreq : req.instrument_id = i := by
      by_contra hne
      rw [inv.inst_none req.instrument_id hne] at hinst
      cases hinst
    by_cases hh : inst.is_halted
    · simp only [submitOrder, hinst]
      rw [if_pos hh]
      exact ⟨inv.nodup, inv.shape, inv.net_sum, inv.val_sum, inv.inst_none,
        inv.inst_some, inv.books_none, inv.book_inst, inv.sides_bids, inv.sides_asks⟩
    · by_cases hr : checkRisk s req.user_id req.instrument_id req.side req.quantity
      · by_cases hq : req.quantity ≤ 0
        · simp only [submitOrder, hinst]
          rw [if_neg hh, if_neg (by simp [hr]), if_pos hq]
          exact ⟨inv.nodup, inv.shape, inv.net_sum, inv.val_sum, inv.inst_none,
            inv.inst_some, inv.books_none, inv.book_inst, inv.sides_bids, inv.sides_asks⟩
        · -- the success branch
          subst hreq
          simp only [submitOrder, hinst] at hx ⊢
          rw [if_neg hh, if_neg (by simp [hr]), if_neg hq] at hx ⊢
          have hsides_b : ∀ id ∈ levelIds ((s.books req.instrument_id).getD
              (Book.init req.instrument_id)).bids,
              (fetch (setO s.heap s.next_order_id
                { id := s.next_order_id, user_id := req.user_id
                  instrument_id := req.instrument_id, side := req.side
                  price := req.price, quantity := req.quantity
                  filled_quantity := 0, status := OrderStatus.PENDING
                  tif := req.tif, post_only := req.post_only
                  timestamp := s.clock }) id).side = Side.BUY ∧
              id < s.next_order_id := by
            cases hb : s.books req.instrument_id with
            | none => intro id hm; cases hm
            | some b =>
              intro id hm
              have h0 := inv.sides_bids b hb id (by simpa [hb] using hm)
              rw [fetch_setO_ne _ _ (Nat.ne_of_lt h0.2)]
              exact h0
          have hsides_a : ∀ id ∈ levelIds ((s.books req.instrument_id).getD
              (Book.init req.instrument_id)).asks,
              (fetch (setO s.heap s.next_order_id
                { id := s.next_order_id, user_id := req.user_id
                  instrument_id := req.instrument_id, side := req.side
                  price := req.price, quantity := req.quantity
                  filled_quantity := 0, status := OrderStatus.PENDING
                  tif := req.tif, post_only := req.post_only
                  timestamp := s.clock }) id).side = Side.SELL ∧
              id < s.next_order_id := by
            cases hb : s.books req.instrument_id with
            | none => intro id hm; cases hm
            | some b =>
              intro id hm
              have h0 := inv.sides_asks b hb id (by simpa [hb] using hm)
              rw [fetch_setO_ne _ _ (Nat.ne_of_lt h0.2)]
              exact h0
          have hbookiid : ((s.books req.instrument_id).getD
              (Book.init req.instrument_id)).instrument_id = req.instrument_id := by
            cases hb : s.books req.instrument_id with
            | none => rfl
            | some b => exact inv.book_inst b hb
          have hid0 : (fetch (setO s.heap s.next_order_id
              { id := s.next_order_id, user_id := req.user_id
                instrument_id := req.instrument_id, side := req.side
                price := req.price, quantity := req.quantity
                filled_quantity := 0, status := OrderStatus.PENDING
                tif := req.tif, post_only := req.post_only
                timestamp := s.clock }) s.next_order_id).id = s.next_order_id := by
            rw [fetch_setO]
          have hpaired := addOrder_paired _ _ (s.clock + 1) s.next_order_id hid0
            (fun id hm => (hsides_b id hm).1) (fun id hm => (hsides_a id hm).1)
            (fun hm => (lt_irrefl _) (hsides_b _ hm).2)
            (fun hm => (lt_irrefl _) (hsides_a _ hm).2)
          have hsum := updFold_paired_sums _ _ _ _ s.positions hpaired hx
          have hadd := addOrder_sides _ _ (s.clock + 1) s.next_order_id hid0
            hsides_b hsides_a
          refine ⟨?_, ?_, ?_, ?_, ?_, ?_, ?_, ?_, ?_, ?_⟩
          · show (((processFills _ _ _ _ _).1).map Prod.fst).Nodup
            rw [processFills_positions]
            exact updFold_nodup _ _ inv.nodup
          · show ShapeOK _ (processFills _ _ _ _ _).1
            rw [processFills_positions]
            refine updFold_shape _ _ inv.shape ?_
            intro f hf
            have := paired_instruments _ _ _ _ hpaired f hf
            rw [this, hbookiid]
          · show posSum _ (processFills _ _ _ _ _).1 = 0
            rw [processFills_positions]
            exact hsum.1.trans inv.net_sum
          · show posSum _ (processFills _ _ _ _ _).1 = 0
            rw [processFills_positions]
            exact hsum.2.trans inv.val_sum
          · exact inv.inst_none
          · exact inv.inst_some
          · intro j hj
            show setF s.books req.instrument_id _ j = none
            rw [setF]
            rw [if_neg hj]
            exact inv.books_none j hj
          · intro b hb
            show b.instrument_id = req.instrument_id
            have : setF s.books req.instrument_id
                (some (addOrder _ _ (s.clock + 1) s.next_order_id).1)
                req.instrument_id = some b := hb
            rw [setF, if_pos rfl] at this
            cases this
            exact hadd.2.2.trans hbookiid
          · intro b hb id hm
            have : setF s.books req.instrument_id
                (some (addOrder _ _ (s.clock + 1) s.next_order_id).1)
                req.instrument_id = some b := hb
            rw [setF, if_pos rfl] at this
            cases this
            exact hadd.1 id hm
          · intro b hb id hm
            have : setF s.books req.instrument_id
                (some (addOrder _ _ (s.clock + 1) s.next_order_id).1)
                req.instrument_id = some b := hb
            rw [setF, if_pos rfl] at this
            cases this
            exact hadd.2.1 id hm
      · simp only [submitOrder, hinst]
        rw [if_neg hh, if_pos (by simp [hr])]
        exact ⟨inv.nodup, inv.shape, inv.net_sum, inv.val_sum, inv.inst_none,
          inv.inst_some, inv.books_none, inv.book_inst, inv.sides_bids, inv.sides_asks⟩

lemma removeFromLevels_subset :
    ∀ (levels : List (Int × List Nat)) (p : Int) (oid id : Nat),
      id ∈ levelIds (removeFromLevels levels p oid) → id ∈ levelIds levels
  | [], p, oid, id => by
    rw [removeFromLevels]
    exact fun h => h
  | (q, fifo) :: rest, p, oid, id => by
    rw [removeFromLevels]
    by_cases h1 : q = p
    · rw [if_pos h1]
      by_cases h2 : (fifo.filter (· ≠ oid)).isEmpty
      · rw [if_pos h2, levelIds_cons]
        exact fun h => List.mem_append_right _ h
      · rw [if_neg h2, levelIds_cons, levelIds_cons]
        intro h
        rcases List.mem_append.mp h with ha | hb
        · exact List.mem_append_left _ (List.mem_of_mem_filter ha)
        · exact List.mem_append_right _ hb
    · rw [if_neg h1, levelIds_cons, levelIds_cons]
      intro h
      rcases List.mem_append.mp h with ha | hb
      · exact List.mem_append_left _ ha
      · exact List.mem_append_right _
          (removeFromLevels_subset rest p oid id hb)

lemma bookCancel_core (b : Book) (h : Heap) (oid : Nat) :
    coreEq h (Book.cancelOrder b h oid).2.1 := by
  rw [Book.cancelOrder]
  split_ifs
  · exact coreEq_setO_st (coreEq_refl _) oid _
  · exact coreEq_refl _

lemma bookCancel_book (b : Book) (h : Heap) (oid : Nat) :
    (Book.cancelOrder b h oid).1.instrument_id = b.instrument_id ∧
    (∀ id ∈ levelIds (Book.cancelOrder b h oid).1.bids, id ∈ levelIds b.bids) ∧
    (∀ id ∈ levelIds (Book.cancelOrder b h oid).1.asks, id ∈ levelIds b.asks) := by
  rw [Book.cancelOrder]
  by_cases h1 : oid ∈ b.orders
  · rw [if_pos h1]
    cases hs : (fetch h oid).side
    · simp only [hs, reduceIte]
      exact ⟨trivial, fun id hm => removeFromLevels_subset _ _ _ id hm, fun id hm => hm⟩
    · simp only [hs, reduceCtorEq, reduceIte]
      exact ⟨trivial, fun id hm => hm, fun id hm => removeFromLevels_subset _ _ _ id hm⟩
  · rw [if_neg h1]
    exact ⟨rfl, fun id hm => hm, fun id hm => hm⟩

lemma bookCancel_not_found (b : Book) (h : Heap) (oid : Nat)
    (hm : oid ∉ b.orders) : Book.cancelOrder b h oid = (b, h, false) := by
  rw [Book.cancelOrder, if_neg hm]

lemma cancelOrder_positions (s : EngineState) (oid uid : Nat) :
    (cancelOrder s oid uid).1.positions = s.positions := by
  rw [cancelOrder]
  by_cases h1 : oid ∈ s.active_orders
  · rw [if_pos h1]
    by_cases h2 : (fetch s.heap oid).user_id = uid
    · rw [if_pos h2]
      by_cases h3 : (Book.cancelOrder ((s.books (fetch s.heap oid).instrument_id).getD
          (Book.init (fetch s.heap oid).instrument_id)) s.heap oid).2.2 = true
      · rw [if_pos h3]
      · rw [if_neg h3]
    · rw [if_neg h2]
  · rw [if_neg h1]

lemma inv_cancel {i : Nat} {s : EngineState} (inv : TraceInv i s)
    (oid uid : Nat) : TraceInv i (cancelOrder s oid uid).1 := by
  rw [cancelOrder]
  by_cases h1 : oid ∈ s.active_orders
  · rw [if_pos h1]
    by_cases h2 : (fetch s.heap oid).user_id = uid
    · rw [if_pos h2]
      by_cases h3 : (Book.cancelOrder ((s.books (fetch s.heap oid).instrument_id).getD
          (Book.init (fetch s.heap oid).instrument_id)) s.heap oid).2.2 = true
      · rw [if_pos h3]
        have hinst_i : (fetch s.heap oid).instrument_id = i := by
          by_contra hne
          rw [inv.books_none _ hne] at h3
          rw [bookCancel_not_found _ _ _ (by
            show oid ∉ (Book.init _).orders
            simp [Book.init])] at h3
          cases h3
        have hbb := bookCancel_book ((s.books (fetch s.heap oid).instrument_id).getD
          (Book.init (fetch s.heap oid).instrument_id)) s.heap oid
        have hbc := bookCancel_core ((s.books (fetch s.heap oid).instrument_id).getD
          (Book.init (fetch s.heap oid).instrument_id)) s.heap oid
        have hbiid : ((s.books (fetch s.heap oid).instrument_id).getD
            (Book.init (fetch s.heap oid).instrument_id)).instrument_id =
            (fetch s.heap oid).instrument_id := by
          cases hb : s.books (fetch s.heap oid).instrument_id with
          | none => rfl
          | some b => exact hinst_i ▸ inv.book_inst b (hinst_i ▸ hb)
        refine ⟨inv.nodup, inv.shape, inv.net_sum, inv.val_sum, inv.inst_none,
          inv.inst_some, ?_, ?_, ?_, ?_⟩
        · intro j hj
          show setF s.books _ _ j = none
          rw [setF, if_neg (by rw [hinst_i]; exact hj)]
          exact inv.books_none j hj
        · intro b hb
          replace hb : setF s.books (fetch s.heap oid).instrument_id _ i = some b := hb
          rw [setF, if_pos hinst_i.symm] at hb
          cases hb
          exact hbb.1.trans (hbiid.trans hinst_i)
        · intro b hb id hm
          replace hb : setF s.books (fetch s.heap oid).instrument_id _ i = some b := hb
          rw [setF, if_pos hinst_i.symm] at hb
          cases hb
          have hm' := hbb.2.1 id hm
          cases hbk : s.books (fetch s.heap oid).instrument_id with
          | none =>
            rw [hbk] at hm'
            cases hm'
          | some bk =>
            rw [hbk] at hm' hbc
            have h0 := inv.sides_bids bk (hinst_i ▸ hbk) id hm'
            exact ⟨(hbc id).2.1.trans h0.1, h0.2⟩
        · intro b hb id hm
          replace hb : setF s.books (fetch s.heap oid).instrument_id _ i = some b := hb
          rw [setF, if_pos hinst_i.symm] at hb
          cases hb
          have hm' := hbb.2.2 id hm
          cases hbk : s.books (fetch s.heap oid).instrument_id with
          | none =>
            rw [hbk] at hm'
            cases hm'
          | some bk =>
            rw [hbk] at hm' hbc
            have h0 := inv.sides_asks bk (hinst_i ▸ hbk) id hm'
            exact ⟨(hbc id).2.1.trans h0.1, h0.2⟩
      · rw [if_neg h3]
        exact inv
    · rw [if_neg h2]
      exact inv
  · rw [if_neg h1]
    exact inv

lemma inv_setRisk {i : Nat} {s : EngineState} (inv : TraceInv i s)
    (uid : Nat) (limits : RiskLimits) :
    TraceInv i (setRiskLimits s uid limits) :=
  ⟨inv.nodup, inv.shape, inv.net_sum, inv.val_sum, inv.inst_none,
    inv.inst_some, inv.books_none, inv.book_inst, inv.sides_bids, inv.sides_asks⟩

lemma inv_halt {i : Nat} {s : EngineState} (inv : TraceInv i s)
    (id : Nat) (halted : Bool) : TraceInv i (haltInstrument s id halted).1 := by
  rw [haltInstrument]
  cases hinst : s.instruments id with
  | none => exact inv
  | some inst =>
    have hid : id = i := by
      by_contra hne
      rw [inv.inst_none id hne] at hinst
      cases hinst
    subst hid
    refine ⟨inv.nodup, inv.shape, inv.net_sum, inv.val_sum, ?_, ?_,
      inv.books_none, inv.book_inst, inv.sides_bids, inv.sides_asks⟩
    · intro j hj
      show setF s.instruments id _ j = none
      rw [setF, if_neg hj]
      exact inv.inst_none j hj
    · obtain ⟨inst0, hi0, ht0⟩ := inv.inst_some
      rw [hinst] at hi0
      cases hi0
      exact ⟨{ inst with is_halted := halted }, by simp [setF], ht0⟩

lemma inv_cancelAll {i : Nat} {s : EngineState} (inv : TraceInv i s)
    (uid : Nat) : TraceInv i (cancelAll s uid).1 := by
  rw [cancelAll]
  generalize s.user_orders uid = ids
  induction ids generalizing s with
  | nil => exact inv
  | cons x xs ih => exact ih (inv_cancel inv x uid)

lemma inv_replace {i : Nat} {s : EngineState} (inv : TraceInv i s)
    (oid uid : Nat) (np nq : Option Int)
    (hx : fillsExact s.positions (opFills s (Op.replace oid uid np nq)) = true) :
    TraceInv i (replaceOrder s oid uid np nq).1 := by
  rw [replaceOrder]
  rw [opFills] at hx
  by_cases h1 : oid ∈ s.active_orders
  · rw [if_pos h1] at hx ⊢
    by_cases h2 : (fetch s.heap oid).user_id = uid
    · rw [if_pos h2] at hx ⊢
      by_cases h3 : (cancelOrder s oid uid).2 = true
      · rw [if_pos h3] at hx ⊢
        rw [← cancelOrder_positions s oid uid] at hx
        exact inv_submit (inv_cancel inv oid uid) _ hx
      · rw [if_neg h3]
        exact inv_cancel inv oid uid
    · rw [if_neg h2]
      exact inv
  · rw [if_neg h1]
    exact inv

lemma settlePosition_val (inst : InstrumentSpec) (v : Int) (pos : Position)
    (ht : inst.tick_value = 1) :
    posVal (settlePosition inst v pos) =
      posVal pos + intrinsicQ inst v * (pos.net_qty : ℚ) := by
  cases htype : inst.type <;>
    simp only [settlePosition, posVal, intrinsicQ, htype, ht] <;>
    push_cast <;> ring

lemma posSum_flat_zero :
    ∀ P : PositionsMap, (∀ e ∈ P, ∀ q ∈ e.2, q.2.net_qty = 0) →
      posSum (fun p => p.net_qty) P = 0
  | [], _ => rfl
  | e :: rest, h => by
    simp only [posSum, List.map_cons, List.sum_cons]
    have h1 : innerSum (fun p => p.net_qty) e.2 = 0 := by
      rw [innerSum]
      apply List.sum_eq_zero
      intro x hx
      rcases List.mem_map.mp hx with ⟨q, hq, rfl⟩
      exact h e (List.mem_cons_self _ _) q hq
    have h2 := posSum_flat_zero rest (fun e' he' => h e' (List.mem_cons_of_mem _ he'))
    simp only [posSum] at h2
    rw [h1, h2]
    ring

lemma settle_map_entry_eq (id : Nat) (inst : InstrumentSpec) (v : Int)
    (e : Nat × UserPositions) (he : e.2 = [] ∨ ∃ pos, e.2 = [(id, pos)]) :
    (match alookup e.2 id with
      | none => e
      | some pos =>
        if pos.net_qty = 0 then e
        else (e.1, aset e.2 id (settlePosition inst v pos))) =
    (e.1, (match alookup e.2 id with
      | none => e.2
      | some pos =>
        if pos.net_qty = 0 then e.2
        else aset e.2 id (settlePosition inst v pos))) := by
  rcases hl : alookup e.2 id with _ | pos
  · rfl
  · show (if pos.net_qty = 0 then e else (e.1, aset e.2 id (settlePosition inst v pos))) =
      (e.1, if pos.net_qty = 0 then e.2 else aset e.2 id (settlePosition inst v pos))
    by_cases hz : pos.net_qty = 0
    · rw [if_pos hz, if_pos hz]
    · rw [if_neg hz, if_neg hz]

lemma settled_inner_flat (id : Nat) (inst : InstrumentSpec) (v : Int)
    (m : UserPositions) (hm : m = [] ∨ ∃ pos, m = [(id, pos)]) :
    ∀ q ∈ (match alookup m id with
      | none => m
      | some pos =>
        if pos.net_qty = 0 then m
        else aset m id (settlePosition inst v pos)), q.2.net_qty = 0 := by
  rcases hm with rfl | ⟨pos, rfl⟩
  · intro q hq
    simp [alookup] at hq
  · intro q hq
    have hl : alookup [(id, pos)] id = some pos := by simp [alookup]
    rw [hl] at hq
    replace hq : q ∈ (if pos.net_qty = 0 then [(id, pos)]
        else aset [(id, pos)] id (settlePosition inst v pos)) := hq
    by_cases hz : pos.net_qty = 0
    · rw [if_pos hz] at hq
      rcases List.mem_cons.mp hq with rfl | hq'
      · exact hz
      · cases hq'
    · rw [if_neg hz] at hq
      have : aset [(id, pos)] id (settlePosition inst v pos) =
          [(id, settlePosition inst v pos)] := by
        rw [aset, if_pos rfl]
      rw [this] at hq
      rcases List.mem_cons.mp hq with rfl | hq'
      · rfl
      · cases hq'

lemma settled_inner_val (id : Nat) (inst : InstrumentSpec) (v : Int)
    (ht : inst.tick_value = 1)
    (m : UserPositions) (hm : m = [] ∨ ∃ pos, m = [(id, pos)]) :
    innerSum posVal (match alookup m id with
      | none => m
      | some pos =>
        if pos.net_qty = 0 then m
        else aset m id (settlePosition inst v pos)) =
    innerSum posVal m +
      intrinsicQ inst v * ((innerSum (fun p => p.net_qty) m : Int) : ℚ) := by
  rcases hm with rfl | ⟨pos, rfl⟩
  · simp [alookup, innerSum]
  · have hl : alookup [(id, pos)] id = some pos := by simp [alookup]
    rw [hl]
    show innerSum posVal (if pos.net_qty = 0 then [(id, pos)]
        else aset [(id, pos)] id (settlePosition inst v pos)) = _
    by_cases hz : pos.net_qty = 0
    · rw [if_pos hz]
      simp [innerSum, hz]
    · rw [if_neg hz]
      have ha : aset [(id, pos)] id (settlePosition inst v pos) =
          [(id, settlePosition inst v pos)] := by
        rw [aset, if_pos rfl]
      rw [ha]
      simp only [innerSum, List.map_cons, List.map_nil, List.sum_cons, List.sum_nil]
      rw [settlePosition_val inst v pos ht]
      ring

lemma settled_inner_shape (id : Nat) (inst : InstrumentSpec) (v : Int)
    (m : UserPositions) (hm : m = [] ∨ ∃ pos, m = [(id, pos)]) :
    (match alookup m id with
      | none => m
      | some pos =>
        if pos.net_qty = 0 then m
        else aset m id (settlePosition inst v pos)) = [] ∨
    ∃ p', (match alookup m id with
      | none => m
      | some pos =>
        if pos.net_qty = 0 then m
        else aset m id (settlePosition inst v pos)) = [(id, p')] := by
  rcases hm with rfl | ⟨pos, rfl⟩
  · left
    rfl
  · right
    have hl : alookup [(id, pos)] id = some pos := by simp [alookup]
    rw [hl]
    show ∃ p', (if pos.net_qty = 0 then [(id, pos)]
        else aset [(id, pos)] id (settlePosition inst v pos)) = [(id, p')]
    by_cases hz : pos.net_qty = 0
    · rw [if_pos hz]
      exact ⟨pos, rfl⟩
    · rw [if_neg hz]
      exact ⟨settlePosition inst v pos, by rw [aset, if_pos rfl]⟩

lemma keyed_map_keys (g : (Nat × UserPositions) → UserPositions)
    (P : PositionsMap) :
    (P.map (fun e => (e.1, g e))).map Prod.fst = P.map Prod.fst := by
  rw [List.map_map]
  rfl

lemma settle_map_val (id : Nat) (inst : InstrumentSpec) (v : Int)
    (ht : inst.tick_value = 1) :
    ∀ P : PositionsMap, ShapeOK id P →
      posSum posVal (P.map (fun e => (e.1, match alookup e.2 id with
        | none => e.2
        | some pos =>
          if pos.net_qty = 0 then e.2
          else aset e.2 id (settlePosition inst v pos)))) =
      posSum posVal P +
        intrinsicQ inst v * ((posSum (fun p => p.net_qty) P : Int) : ℚ)
  | [], _ => by simp [posSum]
  | e :: rest, h => by
    have hhead := settled_inner_val id inst v ht e.2 (h e (List.mem_cons_self _ _))
    have htail := settle_map_val id inst v ht rest
      (fun e' he' => h e' (List.mem_cons_of_mem _ he'))
    simp only [List.map_cons, posSum, List.sum_cons] at *
    rw [hhead, htail]
    push_cast
    ring

lemma inv_settle {i : Nat} {s : EngineState} (inv : TraceInv i s)
    (id : Nat) (v : Int) : TraceInv i (settleInstrument s id v).1 := by
  rw [settleInstrument]
  cases hinst : s.instruments id with
  | none => exact inv
  | some inst =>
    have hid : id = i := by
      by_contra hne
      rw [inv.inst_none id hne] at hinst
      cases hinst
    subst hid
    have ht : inst.tick_value = 1 := by
      obtain ⟨inst0, hi0, ht0⟩ := inv.inst_some
      rw [hinst] at hi0
      cases hi0
      exact ht0
    have hmap : s.positions.map (fun entry =>
        match alookup entry.2 id with
        | none => entry
        | some pos =>
          if pos.net_qty = 0 then entry
          else (entry.1, aset entry.2 id (settlePosition inst v pos))) =
      s.positions.map (fun entry => (entry.1,
        match alookup entry.2 id with
        | none => entry.2
        | some pos =>
          if pos.net_qty = 0 then entry.2
          else aset entry.2 id (settlePosition inst v pos))) :=
      List.map_congr_left (fun e he => settle_map_entry_eq id inst v e (inv.shape e he))
    refine ⟨?_, ?_, ?_, ?_, ?_, ?_, inv.books_none, inv.book_inst,
      inv.sides_bids, inv.sides_asks⟩
    · show ((s.positions.map _).map Prod.fst).Nodup
      rw [hmap, keyed_map_keys]
      exact inv.nodup
    · show ShapeOK id (s.positions.map _)
      rw [hmap]
      intro e he
      rcases List.mem_map.mp he with ⟨e0, he0, rfl⟩
      exact settled_inner_shape id inst v e0.2 (inv.shape e0 he0)
    · show posSum _ (s.positions.map _) = 0
      rw [hmap]
      apply posSum_flat_zero
      intro e he q hq
      rcases List.mem_map.mp he with ⟨e0, he0, rfl⟩
      exact settled_inner_flat id inst v e0.2 (inv.shape e0 he0) q hq
    · show posSum posVal (s.positions.map _) = 0
      rw [hmap, settle_map_val id inst v ht s.positions inv.shape,
        inv.val_sum, inv.net_sum]
      simp
    · intro j hj
      show setF s.instruments id _ j = none
      rw [setF, if_neg hj]
      exact inv.inst_none j hj
    · exact ⟨{ inst with is_halted := true }, by simp [setF], ht⟩

lemma inv_applyOp {i : Nat} {s : EngineState} (inv : TraceInv i s) (op : Op)
    (hx : fillsExact s.positions (opFills s op) = true) :
    TraceInv i (applyOp s op) := by
  cases op with
  | submit req => exact inv_submit inv req hx
  | cancel oid uid => exact inv_cancel inv oid uid
  | replace oid uid np nq => exact inv_replace inv oid uid np nq hx
  | cancelAll uid => exact inv_cancelAll inv uid
  | setRisk uid limits => exact inv_setRisk inv uid limits
  | halt id halted => exact inv_halt inv id halted
  | settle id v => exact inv_settle inv id v

lemma inv_applyOps {i : Nat} :
    ∀ (ops : List Op) (s : EngineState), TraceInv i s →
      opsExact s ops = true → TraceInv i (applyOps s ops)
  | [], s, inv, _ => inv
  | op :: rest, s, inv, hx => by
    rw [opsExact, Bool.and_eq_true] at hx
    exact inv_applyOps rest (applyOp s op) (inv_applyOp inv op hx.1) hx.2

lemma inv_init (spec : InstrumentSpec) (ht : spec.tick_value = 1) :
    TraceInv spec.id (addInstrument EngineState.init spec).1 := by
  simp only [addInstrument, EngineState.init]
  show TraceInv spec.id _
  refine ⟨by simp, fun e he => absurd he (List.not_mem_nil e), rfl, rfl,
    ?_, ?_, ?_, ?_, ?_, ?_⟩
  · intro j hj
    show setF (fun _ => none) spec.id (some spec) j = none
    rw [setF]
    rw [if_neg hj]
  · exact ⟨spec, by simp [setF], ht⟩
  · intro j hj
    show setF (fun _ => none) spec.id (some (Book.init spec.id)) j = none
    rw [setF]
    rw [if_neg hj]
  · intro b hb
    replace hb : setF (fun _ => none) spec.id (some (Book.init spec.id)) spec.id =
        some b := hb
    rw [setF, if_pos rfl] at hb
    cases hb
    rfl
  · intro b hb
    replace hb : setF (fun _ => none) spec.id (some (Book.init spec.id)) spec.id =
        some b := hb
    rw [setF, if_pos rfl] at hb
    cases hb
    intro id hm
    cases hm
  · intro b hb
    replace hb : setF (fun _ => none) spec.id (some (Book.init spec.id)) spec.id =
        some b := hb
    rw [setF, if_pos rfl] at hb
    cases hb
    intro id hm
    cases hm

lemma settle_result_flat {i : Nat} {s : EngineState} (inv : TraceInv i s)
    (v : Int) :
    ∀ e ∈ (settleInstrument s i v).1.positions, ∀ q ∈ e.2, q.2.net_qty = 0 := by
  rw [settleInstrument]
  obtain ⟨inst, hinst, _⟩ := inv.inst_some
  rw [hinst]
  intro e he q hq
  rcases List.mem_map.mp he with ⟨e0, he0, rfl⟩
  have := settle_map_entry_eq i inst v e0 (inv.shape e0 he0)
  rw [this] at hq
  exact settled_inner_flat i inst v e0.2 (inv.shape e0 he0) q hq

lemma pnl_foldl_flat (s : EngineState) :
    ∀ (l : UserPositions) (acc : ℚ), (∀ q ∈ l, q.2.net_qty = 0) →
      List.foldl (fun total entry =>
        let pos := entry.2
        let total := total + pos.realized_pnl
        if pos.net_qty ≠ 0 then
          let mark := getMarkPrice s entry.1
          if 0 < mark then
            total + ((mark : ℚ) / 100 - (pos.vwap : ℚ) / 100) * (pos.net_qty : ℚ)
          else total
        else total) acc l = acc + innerSum posVal l
  | [], acc, _ => by simp [innerSum]
  | e :: rest, acc, h => by
    have h0 := h e (List.mem_cons_self _ _)
    rw [List.foldl_cons,
      pnl_foldl_flat s rest _ (fun q hq => h q (List.mem_cons_of_mem _ hq))]
    simp only [h0, ne_eq, not_true_eq_false, if_false, innerSum, List.map_cons,
      List.sum_cons, posVal]
    push_cast
    ring

lemma getTotalPnl_flat (s : EngineState) (u : Nat) (m : UserPositions)
    (hm : alookup s.positions u = some m) (hflat : ∀ q ∈ m, q.2.net_qty = 0) :
    getTotalPnl s u = innerSum posVal m := by
  rw [getTotalPnl, hm]
  show List.foldl _ 0 m = _
  rw [pnl_foldl_flat s m 0 hflat]
  ring

/-- C6 (amended): with `tick_value = 1` and every VWAP division along
the trace exact, the settled book is zero-sum: after any op sequence on
the single registered instrument and its settlement, the users' total
P&L sums to exactly 0 (and absent users have 0).  Without these
conditions the claim is false — settlement applies `tick_value` while
trading P&L does not, and the C++ integer VWAP division truncates (see
the counterexample, which is off by 10.00, far beyond ±0.01). -/
theorem c6_amended (spec : InstrumentSpec) (ops : List Op) (v : Int)
    (ht : spec.tick_value = 1)
    (hx : opsExact (addInstrument EngineState.init spec).1 ops = true) :
    (((settleInstrument (applyOps (addInstrument EngineState.init spec).1 ops)
        spec.id v).1.positions).map
      (fun e => getTotalPnl (settleInstrument
        (applyOps (addInstrument EngineState.init spec).1 ops) spec.id v).1 e.1)).sum = 0 ∧
    (∀ u, alookup (settleInstrument (applyOps (addInstrument EngineState.init spec).1 ops)
        spec.id v).1.positions u = none →
      getTotalPnl (settleInstrument
        (applyOps (addInstrument EngineState.init spec).1 ops) spec.id v).1 u = 0) := by
  have inv1 := inv_applyOps ops _ (inv_init spec ht) hx
  have inv2 := inv_settle inv1 spec.id v
  have hflat := settle_result_flat inv1 v
  constructor
  · have hmapeq : ∀ e ∈ (settleInstrument
        (applyOps (addInstrument EngineState.init spec).1 ops) spec.id v).1.positions,
        getTotalPnl (settleInstrument
          (applyOps (addInstrument EngineState.init spec).1 ops) spec.id v).1 e.1 =
        innerSum posVal e.2 := by
      intro e he
      exact getTotalPnl_flat _ e.1 e.2
        (alookup_of_nodup _ inv2.nodup e he) (hflat e he)
    rw [List.map_congr_left hmapeq]
    exact inv2.val_sum
  · intro u hu
    rw [getTotalPnl, hu]

set_option maxRecDepth 100000 in
lemma pnl2_peel (u : Nat)
    (hs : alookup scnTick2Settled.positions u = some [ent u])
    (hn : (ent u).2.net_qty = 0) :
    getTotalPnl scnTick2Settled u = (ent u).2.realized_pnl := by
  have h1 : getTotalPnl scnTick2Settled u = innerSum posVal [ent u] :=
    getTotalPnl_flat _ u _ hs (by intro q hq; simp only [List.mem_singleton] at hq; rw [hq]; exact hn)
  rw [h1]
  simp [innerSum, posVal, hn]

set_option maxRecDepth 100000 in
lemma pnl2_1 : getTotalPnl scnTick2Settled 1 = 10 := by
  rw [pnl2_peel 1 rfl (by decide)]
  conv_lhs => reduce
  norm_num [Rat.add, Rat.mul, Rat.inv, Rat.normalize, Rat.sub, Rat.neg, Int.tdiv]

set_option maxRecDepth 100000 in
lemma pnl2_2 : getTotalPnl scnTick2Settled 2 = 0 := by
  rw [pnl2_peel 2 rfl (by decide)]
  conv_lhs => reduce
  norm_num [Rat.add, Rat.mul, Rat.inv, Rat.normalize, Rat.sub, Rat.neg, Int.tdiv]

set_option maxRecDepth 100000 in
lemma pnl2_3 : getTotalPnl scnTick2Settled 3 = -20 := by
  rw [pnl2_peel 3 rfl (by decide)]
  conv_lhs => reduce
  norm_num [Rat.add, Rat.mul, Rat.inv, Rat.normalize, Rat.sub, Rat.neg, Int.tdiv]

set_option maxRecDepth 100000 in
/-- C6 counterexample: `tick_value = 2`, buy 1 at 10000, sell 1 at
11000, settle at 10000: the three users' P&L is (10, 0, −20), summing
to −10, not 0 within ±0.01. -/
theorem c6_cex :
    (scnTick2Settled.positions.map Prod.fst = [2, 1, 3]) ∧
    getTotalPnl scnTick2Settled 1 = 10 ∧
    getTotalPnl scnTick2Settled 2 = 0 ∧
    getTotalPnl scnTick2Settled 3 = -20 ∧
    ¬ |getTotalPnl scnTick2Settled 1 + getTotalPnl scnTick2Settled 2 +
        getTotalPnl scnTick2Settled 3| ≤ 1 / 100 := by
  refine ⟨by decide, pnl2_1, pnl2_2, pnl2_3, ?_⟩
  rw [pnl2_1, pnl2_2, pnl2_3]
  norm_num

set_option maxRecDepth 100000 in
/-- C6 witness: the round-trip trace on the tick-1 SCALAR settles to
an exactly zero P&L sum. -/
theorem c6_amended_witness :
    (scalarSpec 1).tick_value = 1 ∧
    opsExact (addInstrument EngineState.init (scalarSpec 1)).1 opsRoundTrip = true ∧
    (((settleInstrument (applyOps (addInstrument EngineState.init (scalarSpec 1)).1 opsRoundTrip)
        (scalarSpec 1).id 11000).1.positions).map
      (fun e => getTotalPnl (settleInstrument
        (applyOps (addInstrument EngineState.init (scalarSpec 1)).1 opsRoundTrip)
        (scalarSpec 1).id 11000).1 e.1)).sum = 0 :=
  ⟨rfl, by decide, (c6_amended (scalarSpec 1) opsRoundTrip 11000 rfl (by decide)).1⟩

/-- C7 (amended): fills from `add_order` come in adjacent pairs, the
aggressor's fill first and the passive counterparty's second, with equal
price, quantity and instrument id; the passive fill's timestamp is the
aggressor's plus one clock step (two separate `now()` reads), not an
identical timestamp. -/
theorem c7_amended (b : Book) (heap : Heap) (clock : Nat) (oid : Nat)
    (hid : (fetch heap oid).id = oid)
    (hbids : ∀ id ∈ levelIds b.bids, (fetch heap id).side = Side.BUY)
    (hasks : ∀ id ∈ levelIds b.asks, (fetch heap id).side = Side.SELL)
    (hmb : oid ∉ levelIds b.bids) (hma : oid ∉ levelIds b.asks) :
    PairedFills oid (fetch heap oid).side b.instrument_id
      (addOrder b heap clock oid).2.2.2 :=
  addOrder_paired b heap clock oid hid hbids hasks hmb hma

/-- C7 witness: the concrete cross of `crossBook` yields one
aggressor-first pair. -/
theorem c7_amended_witness :
    ((fetch crossHeap 2).id = 2) ∧
    (∀ id ∈ levelIds crossBook.bids, (fetch crossHeap id).side = Side.BUY) ∧
    (∀ id ∈ levelIds crossBook.asks, (fetch crossHeap id).side = Side.SELL) ∧
    (2 ∉ levelIds crossBook.bids) ∧ (2 ∉ levelIds crossBook.asks) ∧
    PairedFills 2 (fetch crossHeap 2).side crossBook.instrument_id
      (addOrder crossBook crossHeap 0 2).2.2.2 :=
  ⟨by decide, by decide, by decide, by decide, by decide,
    c7_amended crossBook crossHeap 0 2 (by decide) (by decide) (by decide)
      (by decide) (by decide)⟩

/-- C7 counterexample: the two fills of the `scnCross` match carry
timestamps 2 and 3 — not the identical timestamp the claim states (two
separate `steady_clock::now()` calls). -/
theorem c7_cex :
    (scnCross.2.fills.map
      (fun f => (f.order_id, f.side, f.instrument_id, f.price, f.quantity)) =
      [(2, Side.SELL, 1, 10000, 100), (1, Side.BUY, 1, 10000, 100)]) ∧
    (scnCross.2.fills.map (fun f => f.timestamp) = [2, 3]) ∧
    ¬ PairedFillsSpec 2 Side.SELL 1 scnCross.2.fills := by
  refine ⟨by decide, by decide, ?_⟩
  intro h
  have h2 : scnCross.2.fills.map (fun f => f.timestamp) = [2, 3] := by decide
  match hf : scnCross.2.fills, h2, h with
  | f1 :: f2 :: rest, h2, h =>
    have := h.2.2.2.2.2.2.2.1
    simp only [List.map_cons, List.cons.injEq] at h2
    omega

lemma matchAtLevel_frame (iid oid : Nat) (p : Int) :
    ∀ (fifo : List Nat) (st : MatchSt) (j : Nat), j ≠ oid → j ∉ fifo →
      fetch (matchAtLevel iid oid p st fifo).1.heap j = fetch st.heap j
  | [], st, j, hj, hjf => by
    rw [matchAtLevel]
  | pid :: rest, st, j, hj, hjf => by
    have hjpid : j ≠ pid := fun hx => hjf (hx ▸ List.mem_cons_self pid rest)
    have hjrest : j ∉ rest := fun hx => hjf (List.mem_cons_of_mem pid hx)
    rw [matchAtLevel]
    by_cases hc : (fetch st.heap oid).filled_quantity < (fetch st.heap oid).quantity
    · rw [if_pos hc]
      by_cases hpop : (fetch st.heap pid).quantity ≤
          (fetch st.heap pid).filled_quantity +
            min ((fetch st.heap oid).quantity - (fetch st.heap oid).filled_quantity)
              ((fetch st.heap pid).quantity - (fetch st.heap pid).filled_quantity)
      · rw [if_pos hpop]
        rw [matchAtLevel_frame iid oid p rest _ j hj hjrest]
        simp only [fetch_setO_ne _ _ hjpid, fetch_setO_ne _ _ hj]
      · rw [if_neg hpop]
        simp only [fetch_setO_ne _ _ hjpid, fetch_setO_ne _ _ hj]
    · rw [if_neg hc]

lemma matchLoop_frame (iid oid : Nat) (cross : Int → Bool) :
    ∀ (levels : List (Int × List Nat)) (st : MatchSt) (j : Nat),
      j ≠ oid → j ∉ levelIds levels →
      fetch (matchLoop iid oid cross st levels).1.heap j = fetch st.heap j
  | [], st, j, hj, hjl => by
    rw [matchLoop]
  | (p, fifo) :: rest, st, j, hj, hjl => by
    have hjf : j ∉ fifo := fun hx => hjl (by rw [levelIds_cons]; exact List.mem_append_left _ hx)
    have hjrest : j ∉ levelIds rest := fun hx => hjl (by rw [levelIds_cons]; exact List.mem_append_right _ hx)
    rw [matchLoop]
    by_cases hc : (fetch st.heap oid).filled_quantity < (fetch st.heap oid).quantity
    · rw [if_pos hc]
      by_cases hcr : cross p
      · rw [if_pos hcr]
        by_cases hpo : (fetch st.heap oid).post_only
        · rw [if_pos hpo]
          simp only [fetch_setO_ne _ _ hj]
        · rw [if_neg hpo]
          by_cases hfin : (matchAtLevel iid oid p st fifo).2.2.isEmpty
          · rw [if_pos hfin]
            rw [matchLoop_frame iid oid cross rest _ j hj hjrest]
            exact matchAtLevel_frame iid oid p fifo st j hj hjf
          · rw [if_neg hfin]
            exact matchAtLevel_frame iid oid p fifo st j hj hjf
      · rw [if_neg hcr]
    · rw [if_neg hc]

lemma matchAtLevel_fill_ids (iid oid : Nat) (p : Int) :
    ∀ (fifo : List Nat) (st : MatchSt),
      (fetch st.heap oid).id = oid →
      (∀ x ∈ fifo, (fetch st.heap x).id = x) →
      oid ∉ fifo →
      ∀ f ∈ (matchAtLevel iid oid p st fifo).2.1,
        f.order_id = oid ∨ f.order_id ∈ fifo
  | [], st, hid, hids, hoid, f, hf => by
    rw [matchAtLevel] at hf
    exact absurd hf (List.not_mem_nil f)
  | pid :: rest, st, hid, hids, hoid, f, hf => by
    have hpidmem : pid ∈ pid :: rest := List.mem_cons_self pid rest
    have hoidrest : oid ∉ rest := fun hx => hoid (List.mem_cons_of_mem pid hx)
    rw [matchAtLevel] at hf
    by_cases hc : (fetch st.heap oid).filled_quantity < (fetch st.heap oid).quantity
    · rw [if_pos hc] at hf
      by_cases hpop : (fetch st.heap pid).quantity ≤
          (fetch st.heap pid).filled_quantity +
            min ((fetch st.heap oid).quantity - (fetch st.heap oid).filled_quantity)
              ((fetch st.heap pid).quantity - (fetch st.heap pid).filled_quantity)
      · rw [if_pos hpop] at hf
        simp only [List.mem_cons] at hf
        rcases hf with hf | hf | hf
        · left; rw [hf]; exact hid
        · right; rw [hf]
          have hgoal : (fetch st.heap pid).id ∈ pid :: rest := by
            rw [hids pid hpidmem]; exact hpidmem
          exact hgoal
        · refine (matchAtLevel_fill_ids iid oid p rest _ ?_ ?_ hoidrest f hf).imp
            id (List.mem_cons_of_mem pid)
          · exact ((coreEq_setO_fq_st
              (coreEq_setO_fq (coreEq_setO_fq (coreEq_refl _) oid _) pid _)
              pid _ _) oid).1.trans hid
          · intro x hx
            exact ((coreEq_setO_fq_st
              (coreEq_setO_fq (coreEq_setO_fq (coreEq_refl _) oid _) pid _)
              pid _ _) x).1.trans (hids x (List.mem_cons_of_mem pid hx))
      · rw [if_neg hpop] at hf
        simp only [List.mem_cons, List.not_mem_nil, or_false] at hf
        rcases hf with hf | hf
        · left; rw [hf]; exact hid
        · right; rw [hf]
          have hgoal : (fetch st.heap pid).id ∈ pid :: rest := by
            rw [hids pid hpidmem]; exact hpidmem
          exact hgoal
    · rw [if_neg hc] at hf
      exact absurd hf (List.not_mem_nil f)

lemma matchAtLevel_fill_price (iid oid : Nat) (p : Int) :
    ∀ (fifo : List Nat) (st : MatchSt),
      ∀ f ∈ (matchAtLevel iid oid p st fifo).2.1, f.price = p
  | [], st, f, hf => by
    rw [matchAtLevel] at hf
    exact absurd hf (List.not_mem_nil f)
  | pid :: rest, st, f, hf => by
    rw [matchAtLevel] at hf
    by_cases hc : (fetch st.heap oid).filled_quantity < (fetch st.heap oid).quantity
    · rw [if_pos hc] at hf
      by_cases hpop : (fetch st.heap pid).quantity ≤
          (fetch st.heap pid).filled_quantity +
            min ((fetch st.heap oid).quantity - (fetch st.heap oid).filled_quantity)
              ((fetch st.heap pid).quantity - (fetch st.heap pid).filled_quantity)
      · rw [if_pos hpop] at hf
        simp only [List.mem_cons] at hf
        rcases hf with hf | hf | hf
        · rw [hf]; rfl
        · rw [hf]; rfl
        · exact matchAtLevel_fill_price iid oid p rest _ f hf
      · rw [if_neg hpop] at hf
        simp only [List.mem_cons, List.not_mem_nil, or_false] at hf
        rcases hf with hf | hf
        · rw [hf]; rfl
        · rw [hf]; rfl
    · rw [if_neg hc] at hf
      exact absurd hf (List.not_mem_nil f)

lemma matchLoop_fill_ids (iid oid : Nat) (cross : Int → Bool) :
    ∀ (levels : List (Int × List Nat)) (st : MatchSt),
      (fetch st.heap oid).id = oid →
      (∀ x ∈ levelIds levels, (fetch st.heap x).id = x) →
      oid ∉ levelIds levels →
      ∀ f ∈ (matchLoop iid oid cross st levels).2.1,
        f.order_id = oid ∨ f.order_id ∈ levelIds levels
  | [], st, hid, hids, hoid, f, hf => by
    rw [matchLoop] at hf
    exact absurd hf (List.not_mem_nil f)
  | (p, fifo) :: rest, st, hid, hids, hoid, f, hf => by
    rw [levelIds_cons] at hids hoid ⊢
    have hidf : ∀ x ∈ fifo, (fetch st.heap x).id = x :=
      fun x hx => hids x (List.mem_append_left _ hx)
    have hidr : ∀ x ∈ levelIds rest, (fetch st.heap x).id = x :=
      fun x hx => hids x (List.mem_append_right _ hx)
    have hof : oid ∉ fifo := fun hx => hoid (List.mem_append_left _ hx)
    have hor : oid ∉ levelIds rest := fun hx => hoid (List.mem_append_right _ hx)
    rw [matchLoop] at hf
    by_cases hc : (fetch st.heap oid).filled_quantity < (fetch st.heap oid).quantity
    · rw [if_pos hc] at hf
      by_cases hcr : cross p
      · rw [if_pos hcr] at hf
        by_cases hpo : (fetch st.heap oid).post_only
        · rw [if_pos hpo] at hf
          exact absurd hf (List.not_mem_nil f)
        · rw [if_neg hpo] at hf
          have cc := matchAtLevel_core iid oid p fifo st
          by_cases hfin : (matchAtLevel iid oid p st fifo).2.2.isEmpty
          · rw [if_pos hfin] at hf
            simp only [List.mem_append] at hf
            rcases hf with hf | hf
            · exact (matchAtLevel_fill_ids iid oid p fifo st hid hidf hof f hf).imp
                id (List.mem_append_left _)
            · refine (matchLoop_fill_ids iid oid cross rest _ ?_ ?_ hor f hf).imp
                id (List.mem_append_right _)
              · exact (cc oid).1.trans hid
              · intro x hx
                exact (cc x).1.trans (hidr x hx)
          · rw [if_neg hfin] at hf
            exact (matchAtLevel_fill_ids iid oid p fifo st hid hidf hof f hf).imp
              id (List.mem_append_left _)
      · rw [if_neg hcr] at hf
        exact absurd hf (List.not_mem_nil f)
    · rw [if_neg hc] at hf
      exact absurd hf (List.not_mem_nil f)

lemma matchLoop_fill_cross (iid oid : Nat) (cross : Int → Bool) :
    ∀ (levels : List (Int × List Nat)) (st : MatchSt),
      ∀ f ∈ (matchLoop iid oid cross st levels).2.1,
        cross f.price = true ∧ f.price ∈ levels.map Prod.fst
  | [], st, f, hf => by
    rw [matchLoop] at hf
    exact absurd hf (List.not_mem_nil f)
  | (p, fifo) :: rest, st, f, hf => by
    rw [matchLoop] at hf
    by_cases hc : (fetch st.heap oid).filled_quantity < (fetch st.heap oid).quantity
    · rw [if_pos hc] at hf
      by_cases hcr : cross p
      · rw [if_pos hcr] at hf
        by_cases hpo : (fetch st.heap oid).post_only
        · rw [if_pos hpo] at hf
          exact absurd hf (List.not_mem_nil f)
        · rw [if_neg hpo] at hf
          by_cases hfin : (matchAtLevel iid oid p st fifo).2.2.isEmpty
          · rw [if_pos hfin] at hf
            simp only [List.mem_append] at hf
            rcases hf with hf | hf
            · rw [matchAtLevel_fill_price iid oid p fifo st f hf]
              exact ⟨hcr, by simp⟩
            · rcases matchLoop_fill_cross iid oid cross rest _ f hf with ⟨h1, h2⟩
              exact ⟨h1, by simp only [List.map_cons]; exact List.mem_cons_of_mem _ h2⟩
          · rw [if_neg hfin] at hf
            rw [matchAtLevel_fill_price iid oid p fifo st f hf]
            exact ⟨hcr, by simp⟩
      · rw [if_neg hcr] at hf
        exact absurd hf (List.not_mem_nil f)
    · rw [if_neg hc] at hf
      exact absurd hf (List.not_mem_nil f)

lemma pairwise_const_price (p : Int) (l : List Fill) (R : Int → Int → Prop)
    (hall : ∀ f ∈ l, f.price = p) :
    (l.map (fun f => f.price)).Pairwise (fun a b => a = b ∨ R a b) := by
  refine List.pairwise_of_forall_mem_list ?_
  intro a ha b hb
  simp only [List.mem_map] at ha hb
  rcases ha with ⟨f, hf, rfl⟩
  rcases hb with ⟨g, hg, rfl⟩
  left
  rw [hall f hf, hall g hg]

lemma matchLoop_price_pairwise (iid oid : Nat) (cross : Int → Bool)
    (R : Int → Int → Bool) :
    ∀ (levels : List (Int × List Nat)) (st : MatchSt),
      levels.Pairwise (fun a b => R a.1 b.1 = true) →
      ((matchLoop iid oid cross st levels).2.1.map (fun f => f.price)).Pairwise
        (fun a b => a = b ∨ R a b = true)
  | [], st, hsort => by
    rw [matchLoop]
    exact List.Pairwise.nil
  | (p, fifo) :: rest, st, hsort => by
    rw [matchLoop]
    by_cases hc : (fetch st.heap oid).filled_quantity < (fetch st.heap oid).quantity
    · rw [if_pos hc]
      by_cases hcr : cross p
      · rw [if_pos hcr]
        by_cases hpo : (fetch st.heap oid).post_only
        · rw [if_pos hpo]
          exact List.Pairwise.nil
        · rw [if_neg hpo]
          by_cases hfin : (matchAtLevel iid oid p st fifo).2.2.isEmpty
          · rw [if_pos hfin]
            show (((matchAtLevel iid oid p st fifo).2.1 ++
                (matchLoop iid oid cross (matchAtLevel iid oid p st fifo).1 rest).2.1).map
                (fun f => f.price)).Pairwise _
            rw [List.map_append, List.pairwise_append]
            refine ⟨pairwise_const_price p _ _
                (matchAtLevel_fill_price iid oid p fifo st), ?_, ?_⟩
            · exact matchLoop_price_pairwise iid oid cross R rest _ (List.Pairwise.sublist (List.sublist_cons_self _ _) hsort)
            · intro a ha b hb
              simp only [List.mem_map] at ha hb
              rcases ha with ⟨f, hf, rfl⟩
              rcases hb with ⟨g, hg, rfl⟩
              right
              rw [matchAtLevel_fill_price iid oid p fifo st f hf]
              have hmem := (matchLoop_fill_cross iid oid cross rest _ g hg).2
              simp only [List.mem_map] at hmem
              rcases hmem with ⟨lvl, hlvl, hpl⟩
              have hrel := (List.pairwise_cons.mp hsort).1 lvl hlvl
              rw [hpl] at hrel
              exact hrel
          · rw [if_neg hfin]
            exact pairwise_const_price p _ _ (matchAtLevel_fill_price iid oid p fifo st)
      · rw [if_neg hcr]
        exact List.Pairwise.nil
    · rw [if_neg hc]
      exact List.Pairwise.nil

lemma matchAtLevel_fifo (iid oid : Nat) (p : Int) :
    ∀ (fifo : List Nat) (st : MatchSt),
      (fetch st.heap oid).id = oid →
      (∀ x ∈ fifo, (fetch st.heap x).id = x) →
      fifo.Nodup →
      oid ∉ fifo →
      ∀ i j, i < j → ∀ hjl : j < fifo.length,
        (∃ f ∈ (matchAtLevel iid oid p st fifo).2.1,
          f.order_id = fifo.get ⟨j, hjl⟩) →
        ∀ hil : i < fifo.length,
        Filled (matchAtLevel iid oid p st fifo).1.heap (fifo.get ⟨i, hil⟩)
  | [], st, hid, hids, hnd, hoid, i, j, hij, hjl, hex, hil => by
    exact absurd hjl (by simp)
  | pid :: rest, st, hid, hids, hnd, hoid, i, j, hij, hjl, hex, hil => by
    have hpidmem : pid ∈ pid :: rest := List.mem_cons_self pid rest
    have hoidrest : oid ∉ rest := fun hx => hoid (List.mem_cons_of_mem pid hx)
    have hoidpid : pid ≠ oid := fun hx => hoid (hx ▸ hpidmem)
    have hpidrest : pid ∉ rest := (List.nodup_cons.mp hnd).1
    rw [matchAtLevel] at hex ⊢
    by_cases hc : (fetch st.heap oid).filled_quantity < (fetch st.heap oid).quantity
    · rw [if_pos hc] at hex ⊢
      by_cases hpop : (fetch st.heap pid).quantity ≤
          (fetch st.heap pid).filled_quantity +
            min ((fetch st.heap oid).quantity - (fetch st.heap oid).filled_quantity)
              ((fetch st.heap pid).quantity - (fetch st.heap pid).filled_quantity)
      · rw [if_pos hpop] at hex ⊢
        match j, hjl, hij with
        | j' + 1, hjl, hij =>
        obtain ⟨f, hf, hfid⟩ := hex
        simp only [List.mem_cons] at hf
        have hjl' : j' < rest.length := Nat.succ_lt_succ_iff.mp hjl
        have hgetj : (pid :: rest).get ⟨j' + 1, hjl⟩ = rest.get ⟨j', hjl'⟩ := rfl
        match i, hil with
        | 0, hil =>
          have hget : (pid :: rest).get ⟨0, hil⟩ = pid := rfl
          rw [hget]
          simp only [Filled]
          rw [matchAtLevel_frame iid oid p rest _ pid hoidpid hpidrest, fetch_setO]
          exact hpop
        | i' + 1, hil =>
          have hil' : i' < rest.length := Nat.succ_lt_succ_iff.mp hil
          have hij' : i' < j' := Nat.succ_lt_succ_iff.mp hij
          have hget : (pid :: rest).get ⟨i' + 1, hil⟩ = rest.get ⟨i', hil'⟩ := rfl
          rw [hget]
          rcases hf with hf | hf | hf
          · exfalso
            rw [hgetj] at hfid
            have hmem : oid ∈ rest := by
              have h1 : oid = rest.get ⟨j', hjl'⟩ := by rw [← hid]; rw [hf] at hfid; exact hfid
              rw [h1]; exact List.get_mem rest j' hjl'
            exact hoidrest hmem
          · exfalso
            rw [hgetj] at hfid
            have hmem : pid ∈ rest := by
              have h1 : pid = rest.get ⟨j', hjl'⟩ := by
                rw [← hids pid hpidmem]; rw [hf] at hfid; exact hfid
              rw [h1]; exact List.get_mem rest j' hjl'
            exact hpidrest hmem
          · refine matchAtLevel_fifo iid oid p rest _ ?_ ?_
              (List.nodup_cons.mp hnd).2 hoidrest i' j' hij' hjl' ⟨f, hf, ?_⟩ hil'
            · exact ((coreEq_setO_fq_st
                (coreEq_setO_fq (coreEq_setO_fq (coreEq_refl _) oid _) pid _)
                pid _ _) oid).1.trans hid
            · intro x hx
              exact ((coreEq_setO_fq_st
                (coreEq_setO_fq (coreEq_setO_fq (coreEq_refl _) oid _) pid _)
                pid _ _) x).1.trans (hids x (List.mem_cons_of_mem pid hx))
            · rw [hgetj] at hfid; exact hfid
      · rw [if_neg hpop] at hex ⊢
        exfalso
        match j, hjl, hij with
        | j' + 1, hjl, hij =>
        obtain ⟨f, hf, hfid⟩ := hex
        simp only [List.mem_cons, List.not_mem_nil, or_false] at hf
        have hjl' : j' < rest.length := Nat.succ_lt_succ_iff.mp hjl
        have hgetj : (pid :: rest).get ⟨j' + 1, hjl⟩ = rest.get ⟨j', hjl'⟩ := rfl
        rw [hgetj] at hfid
        rcases hf with hf | hf
        · have hmem : oid ∈ rest := by
            have h1 : oid = rest.get ⟨j', hjl'⟩ := by rw [← hid]; rw [hf] at hfid; exact hfid
            rw [h1]; exact List.get_mem rest j' hjl'
          exact hoidrest hmem
        · have hmem : pid ∈ rest := by
            have h1 : pid = rest.get ⟨j', hjl'⟩ := by
              rw [← hids pid hpidmem]; rw [hf] at hfid; exact hfid
            rw [h1]; exact List.get_mem rest j' hjl'
          exact hpidrest hmem
    · rw [if_neg hc] at hex ⊢
      obtain ⟨f, hf, _⟩ := hex
      exact absurd hf (List.not_mem_nil f)

lemma mem_levelIds_of_mem {levels : List (Int × List Nat)} {p : Int}
    {fifo : List Nat} {x : Nat} (hl : (p, fifo) ∈ levels) (hx : x ∈ fifo) :
    x ∈ levelIds levels := by
  simp only [levelIds, List.mem_flatMap]
  exact ⟨(p, fifo), hl, hx⟩

lemma matchLoop_fifo (iid oid : Nat) (cross : Int → Bool) :
    ∀ (levels : List (Int × List Nat)) (st : MatchSt),
      (fetch st.heap oid).id = oid →
      (∀ x ∈ levelIds levels, (fetch st.heap x).id = x) →
      (levelIds levels).Nodup →
      oid ∉ levelIds levels →
      ∀ p fifo, (p, fifo) ∈ levels →
      ∀ i j, i < j → ∀ hjl : j < fifo.length,
        (∃ f ∈ (matchLoop iid oid cross st levels).2.1,
          f.order_id = fifo.get ⟨j, hjl⟩) →
        ∀ hil : i < fifo.length,
        Filled (matchLoop iid oid cross st levels).1.heap (fifo.get ⟨i, hil⟩)
  | [], st, hid, hids, hnd, hoid, p, fifo, hmem, _, _, _, _, _, _ => by
    exact absurd hmem (List.not_mem_nil _)
  | (q, ffo) :: rest, st, hid, hids, hnd, hoid, p, fifo, hmem, i, j, hij, hjl, hex, hil => by
    rw [levelIds_cons] at hids hnd hoid
    have hidf : ∀ x ∈ ffo, (fetch st.heap x).id = x :=
      fun x hx => hids x (List.mem_append_left _ hx)
    have hidr : ∀ x ∈ levelIds rest, (fetch st.heap x).id = x :=
      fun x hx => hids x (List.mem_append_right _ hx)
    have hof : oid ∉ ffo := fun hx => hoid (List.mem_append_left _ hx)
    have hor : oid ∉ levelIds rest := fun hx => hoid (List.mem_append_right _ hx)
    obtain ⟨ndf, ndr, disj⟩ := List.nodup_append.mp hnd
    rw [matchLoop] at hex ⊢
    by_cases hc : (fetch st.heap oid).filled_quantity < (fetch st.heap oid).quantity
    · rw [if_pos hc] at hex ⊢
      by_cases hcr : cross q
      · rw [if_pos hcr] at hex ⊢
        by_cases hpo : (fetch st.heap oid).post_only
        · rw [if_pos hpo] at hex ⊢
          obtain ⟨f, hf, _⟩ := hex
          exact absurd hf (List.not_mem_nil f)
        · rw [if_neg hpo] at hex ⊢
          have cc := matchAtLevel_core iid oid q ffo st
          by_cases hfin : (matchAtLevel iid oid q st ffo).2.2.isEmpty
          · rw [if_pos hfin] at hex ⊢
            obtain ⟨f, hf, hfid⟩ := hex
            simp only [List.mem_append] at hf
            rcases List.mem_cons.mp hmem with hhead | htail
            · obtain ⟨hpq, hffo⟩ := Prod.mk.injEq .. ▸ hhead
              subst hpq
              subst hffo
              rcases hf with hf | hf
              · have hB := matchAtLevel_fifo iid oid p fifo st hid hidf ndf hof
                  i j hij hjl ⟨f, hf, hfid⟩ hil
                have hmemi : fifo.get ⟨i, hil⟩ ∈ fifo := List.get_mem fifo i hil
                simp only [Filled] at hB ⊢
                rw [matchLoop_frame iid oid cross rest _ _
                  (fun hx => hof (hx ▸ hmemi)) (fun hx => disj hmemi hx)]
                exact hB
              · exfalso
                have hids2 := matchLoop_fill_ids iid oid cross rest _
                  ((cc oid).1.trans hid)
                  (fun x hx => (cc x).1.trans (hidr x hx)) hor f hf
                have hmemj : fifo.get ⟨j, hjl⟩ ∈ fifo := List.get_mem fifo j hjl
                rcases hids2 with h | h
                · rw [hfid] at h
                  exact hof (h ▸ hmemj)
                · rw [hfid] at h
                  exact disj hmemj h
            · rcases hf with hf | hf
              · exfalso
                have hids2 := matchAtLevel_fill_ids iid oid q ffo st hid hidf hof f hf
                have hmemj : fifo.get ⟨j, hjl⟩ ∈ levelIds rest :=
                  mem_levelIds_of_mem htail (List.get_mem fifo j hjl)
                rcases hids2 with h | h
                · rw [hfid] at h
                  exact hor (h ▸ hmemj)
                · rw [hfid] at h
                  exact disj h hmemj
              · exact matchLoop_fifo iid oid cross rest _
                  ((cc oid).1.trans hid)
                  (fun x hx => (cc x).1.trans (hidr x hx)) ndr hor
                  p fifo htail i j hij hjl ⟨f, hf, hfid⟩ hil
          · rw [if_neg hfin] at hex ⊢
            obtain ⟨f, hf, hfid⟩ := hex
            rcases List.mem_cons.mp hmem with hhead | htail
            · obtain ⟨hpq, hffo⟩ := Prod.mk.injEq .. ▸ hhead
              subst hpq
              subst hffo
              exact matchAtLevel_fifo iid oid p fifo st hid hidf ndf hof
                i j hij hjl ⟨f, hf, hfid⟩ hil
            · exfalso
              have hids2 := matchAtLevel_fill_ids iid oid q ffo st hid hidf hof f hf
              have hmemj : fifo.get ⟨j, hjl⟩ ∈ levelIds rest :=
                mem_levelIds_of_mem htail (List.get_mem fifo j hjl)
              rcases hids2 with h | h
              · rw [hfid] at h
                exact hor (h ▸ hmemj)
              · rw [hfid] at h
                exact disj h hmemj
      · rw [if_neg hcr] at hex ⊢
        obtain ⟨f, hf, _⟩ := hex
        exact absurd hf (List.not_mem_nil f)
    · rw [if_neg hc] at hex ⊢
      obtain ⟨f, hf, _⟩ := hex
      exact absurd hf (List.not_mem_nil f)

lemma matchAtLevel_stop (iid oid : Nat) (p : Int) :
    ∀ (fifo : List Nat) (st : MatchSt),
      oid ∉ fifo →
      (matchAtLevel iid oid p st fifo).2.2 ≠ [] →
      Filled (matchAtLevel iid oid p st fifo).1.heap oid
  | [], st, hoid, hne => by
    rw [matchAtLevel] at hne
    exact absurd rfl hne
  | pid :: rest, st, hoid, hne => by
    have hoidrest : oid ∉ rest := fun hx => hoid (List.mem_cons_of_mem pid hx)
    have hoidpid : oid ≠ pid := fun hx => hoid (hx ▸ List.mem_cons_self pid rest)
    rw [matchAtLevel] at hne ⊢
    by_cases hc : (fetch st.heap oid).filled_quantity < (fetch st.heap oid).quantity
    · rw [if_pos hc] at hne ⊢
      by_cases hpop : (fetch st.heap pid).quantity ≤
          (fetch st.heap pid).filled_quantity +
            min ((fetch st.heap oid).quantity - (fetch st.heap oid).filled_quantity)
              ((fetch st.heap pid).quantity - (fetch st.heap pid).filled_quantity)
      · rw [if_pos hpop] at hne ⊢
        exact matchAtLevel_stop iid oid p rest _ hoidrest hne
      · rw [if_neg hpop] at hne ⊢
        simp only [Filled, fetch_setO_ne _ _ hoidpid, fetch_setO]
        show (fetch st.heap oid).quantity ≤ (fetch st.heap oid).filled_quantity +
          min ((fetch st.heap oid).quantity - (fetch st.heap oid).filled_quantity)
            ((fetch st.heap pid).quantity - (fetch st.heap pid).filled_quantity)
        omega
    · rw [if_neg hc] at hne ⊢
      simp only [Filled]
      omega

lemma matchLoop_stop (iid oid : Nat) (cross : Int → Bool) :
    ∀ (levels : List (Int × List Nat)) (st : MatchSt),
      oid ∉ levelIds levels →
      ∀ p fifo rest',
        (matchLoop iid oid cross st levels).2.2 = (p, fifo) :: rest' →
        Filled (matchLoop iid oid cross st levels).1.heap oid ∨
        cross p = false ∨
        (fetch (matchLoop iid oid cross st levels).1.heap oid).status =
          OrderStatus.REJECTED
  | [], st, hoid, p, fifo, rest', hres => by
    rw [matchLoop] at hres
    exact absurd hres (by simp)
  | (q, ffo) :: rest, st, hoid, p, fifo, rest', hres => by
    rw [levelIds_cons] at hoid
    have hof : oid ∉ ffo := fun hx => hoid (List.mem_append_left _ hx)
    have hor : oid ∉ levelIds rest := fun hx => hoid (List.mem_append_right _ hx)
    rw [matchLoop] at hres ⊢
    by_cases hc : (fetch st.heap oid).filled_quantity < (fetch st.heap oid).quantity
    · rw [if_pos hc] at hres ⊢
      by_cases hcr : cross q
      · rw [if_pos hcr] at hres ⊢
        by_cases hpo : (fetch st.heap oid).post_only
        · rw [if_pos hpo] at hres ⊢
          right; right
          simp [fetch_setO]
        · rw [if_neg hpo] at hres ⊢
          by_cases hfin : (matchAtLevel iid oid q st ffo).2.2.isEmpty
          · rw [if_pos hfin] at hres ⊢
            exact matchLoop_stop iid oid cross rest _ hor p fifo rest' hres
          · rw [if_neg hfin] at hres ⊢
            left
            exact matchAtLevel_stop iid oid q ffo st hof
              (fun h => hfin (by rw [h]; rfl))
      · rw [if_neg hcr] at hres ⊢
        right; left
        have hqp : q = p := by
          have := (List.cons.injEq .. ▸ hres).1
          exact (Prod.mk.injEq .. ▸ this).1
        rw [← hqp]
        exact Bool.eq_false_iff.mpr hcr
    · rw [if_neg hc] at hres ⊢
      left
      simp only [Filled]
      omega

/-- C8: price-time priority of `OrderBook::match_order`.  Within a price
level of the opposite side, FIFO: if any fill of the returned sequence
names the resting order at position `j` of the level's queue, every
order at an earlier position `i < j` ends fully filled.  Across levels,
best price first: the fill prices walk the (sorted) opposite side in
order, every fill price crosses the incoming limit, and matching stops
when the incoming price no longer crosses: if the opposite side is left
non-empty, the incoming order is full, or its price does not cross the
remaining best level, or it was a rejected post-only order.  The book
side ordering (`std::map` comparators of `order_book.h`) is modelled
from the spec via `LevelsSorted`. -/
theorem c8_thm (b : Book) (heap : Heap) (clock oid : Nat)
    (hid : (fetch heap oid).id = oid)
    (hids : ∀ x ∈ levelIds (oppSide b (fetch heap oid).side), (fetch heap x).id = x)
    (hnd : (levelIds (oppSide b (fetch heap oid).side)).Nodup)
    (hoid : oid ∉ levelIds (oppSide b (fetch heap oid).side))
    (hsort : LevelsSorted (fetch heap oid).side (oppSide b (fetch heap oid).side)) :
    (∀ p fifo, (p, fifo) ∈ oppSide b (fetch heap oid).side →
      ∀ i j, i < j → ∀ hjl : j < fifo.length,
        (∃ f ∈ (matchOrder b heap clock oid).2.2.2,
          f.order_id = fifo.get ⟨j, hjl⟩) →
        ∀ hil : i < fifo.length,
        Filled (matchOrder b heap clock oid).2.1 (fifo.get ⟨i, hil⟩)) ∧
    (((matchOrder b heap clock oid).2.2.2.map (fun f => f.price)).Pairwise
      (fun a c => a = c ∨ better (fetch heap oid).side a c = true) ∧
     ∀ f ∈ (matchOrder b heap clock oid).2.2.2,
       crossP (fetch heap oid).side (fetch heap oid).price f.price = true) ∧
    (∀ p fifo rest',
      oppSide (matchOrder b heap clock oid).1 (fetch heap oid).side =
        (p, fifo) :: rest' →
      Filled (matchOrder b heap clock oid).2.1 oid ∨
      crossP (fetch heap oid).side (fetch heap oid).price p = false ∨
      (fetch (matchOrder b heap clock oid).2.1 oid).status =
        OrderStatus.REJECTED) := by
  by_cases hs : (fetch heap oid).side = Side.BUY
  · simp only [oppSide, crossP, better, LevelsSorted, hs, if_pos] at hids hnd hoid hsort ⊢
    simp only [matchOrder, hs, if_pos]
    refine ⟨?_, ⟨?_, ?_⟩, ?_⟩
    · intro p fifo hmem i j hij hjl hex hil
      exact matchLoop_fifo b.instrument_id oid _ b.asks
        { heap := heap, clock := clock, last := b.last_price, orders := b.orders }
        hid hids hnd hoid p fifo hmem i j hij hjl hex hil
    · exact matchLoop_price_pairwise b.instrument_id oid _ _ b.asks
        { heap := heap, clock := clock, last := b.last_price, orders := b.orders }
        hsort
    · intro f hf
      exact (matchLoop_fill_cross b.instrument_id oid _ b.asks
        { heap := heap, clock := clock, last := b.last_price, orders := b.orders }
        f hf).1
    · intro p fifo rest' hres
      exact matchLoop_stop b.instrument_id oid _ b.asks
        { heap := heap, clock := clock, last := b.last_price, orders := b.orders }
        hoid p fifo rest' hres
  · simp only [oppSide, crossP, better, LevelsSorted, hs, if_neg] at hids hnd hoid hsort ⊢
    simp only [matchOrder, hs, if_neg]
    refine ⟨?_, ⟨?_, ?_⟩, ?_⟩
    · intro p fifo hmem i j hij hjl hex hil
      exact matchLoop_fifo b.instrument_id oid _ b.bids
        { heap := heap, clock := clock, last := b.last_price, orders := b.orders }
        hid hids hnd hoid p fifo hmem i j hij hjl hex hil
    · exact matchLoop_price_pairwise b.instrument_id oid _ _ b.bids
        { heap := heap, clock := clock, last := b.last_price, orders := b.orders }
        hsort
    · intro f hf
      exact (matchLoop_fill_cross b.instrument_id oid _ b.bids
        { heap := heap, clock := clock, last := b.last_price, orders := b.orders }
        f hf).1
    · intro p fifo rest' hres
      exact matchLoop_stop b.instrument_id oid _ b.bids
        { heap := heap, clock := clock, last := b.last_price, orders := b.orders }
        hoid p fifo rest' hres

/-- C8 witness: a BUY sweeping two sorted ask levels at a concrete
book. -/
theorem c8_witness :
    ((fetch c8Heap 4).id = 4) ∧
    (∀ x ∈ levelIds (oppSide c8Book (fetch c8Heap 4).side), (fetch c8Heap x).id = x) ∧
    ((levelIds (oppSide c8Book (fetch c8Heap 4).side)).Nodup) ∧
    (4 ∉ levelIds (oppSide c8Book (fetch c8Heap 4).side)) ∧
    (LevelsSorted (fetch c8Heap 4).side (oppSide c8Book (fetch c8Heap 4).side)) ∧
    (((matchOrder c8Book c8Heap 0 4).2.2.2.map (fun f => f.price)).Pairwise
      (fun a c => a = c ∨ better (fetch c8Heap 4).side a c = true) ∧
     ∀ f ∈ (matchOrder c8Book c8Heap 0 4).2.2.2,
       crossP (fetch c8Heap 4).side (fetch c8Heap 4).price f.price = true) :=
  ⟨by decide, by decide, by decide, by decide, by decide,
    (c8_thm c8Book c8Heap 0 4 (by decide) (by decide) (by decide) (by decide)
      (by decide)).2.1⟩

/-- C3 witness: a crossing post-only SELL against the resting bid is
rejected with no fills. -/
theorem c3_wit :
    poHeap poOrder.id = some poOrder ∧
    poOrder.id ∉ poBook.orders ∧
    poOrder.post_only = true ∧
    poOrder.filled_quantity < poOrder.quantity ∧
    (addOrder poBook poHeap 2 poOrder.id).2.2.2 = [] ∧
    (fetch ((addOrder poBook poHeap 2 poOrder.id).2.1) poOrder.id).status =
      OrderStatus.REJECTED :=
  ⟨by decide, by decide, by decide, by decide,
    (c3_thm poBook poHeap 2 poOrder (by decide) (by decide) (by decide) (by decide)
      (Or.inr ⟨rfl, 10000, [1], [], rfl, le_refl _⟩)).2.1,
    (c3_thm poBook poHeap 2 poOrder (by decide) (by decide) (by decide) (by decide)
      (Or.inr ⟨rfl, 10000, [1], [], rfl, le_refl _⟩)).2.2.2.2.1⟩

/-- C5 witness: settling the registered SCALAR at 11000 succeeds and
halts it. -/
theorem c5_wit :
    scnTick1.instruments 1 = some (scalarSpec 1) ∧
    (settleInstrument scnTick1 1 11000).2 = true ∧
    (settleInstrument scnTick1 1 11000).1.instruments 1 =
      some { scalarSpec 1 with is_halted := true } :=
  ⟨rfl, (c5_thm scnTick1 1 11000 (scalarSpec 1) rfl).1,
    (c5_thm scnTick1 1 11000 (scalarSpec 1) rfl).2.1⟩

end MMG
